import Mathlib

set_option maxRecDepth 20000

/-!
Verification of the source-map injection and pairing subsystem of the
splunk-rum-cli repository.

The development shallowly embeds the TypeScript sources:

* `src/utils/filesystem.ts` — line-oriented reading (`readlines`, whose
  readline interface recognizes `\n`, `\r\n` and lone `\r` as line breaks),
  `writeLinesToFile` (each line followed by `os.EOL`), `overwriteFileContents`
  (write temp file + rename), `getTempFilePath`, `cleanupTemporaryFiles`.
* `src/sourcemaps/utils.ts` — the snippet/prefix constants and suffix
  classification of paths.
* `src/sourcemaps/injectFile.ts` — the scan/replace/insert/append logic.
* `src/sourcemaps/computeSourceMapId.ts` — SHA-256 based identifier.
* `src/sourcemaps/discoverJsMapFilePath.ts` — JS/map pairing.
* `src/sourcemaps/wasInjectAlreadyRun.ts` — upload-time verifier.
* `src/sourcemaps/index.ts` — the inject orchestrator.

File contents are modelled as `String` (a byte/char sequence), filesystems as
`String → Option String`, and the mutating phase of the injector as an
explicit list of primitive filesystem operations so that interruption can be
expressed as executing a prefix of the operation list.
-/

/-! ## Line splitting, as performed by `readlines` (node readline).

Node's readline splits on `\r\n`, `\n` and lone `\r` (`crlfDelay: Infinity`
merges `\r\n` into a single break).  A final segment without a terminator is
still emitted; a terminator at end-of-input does not produce a trailing empty
line. -/

mutual

def splitLinesAux : List Char → List Char → List String
  | [], acc => if acc.isEmpty then [] else [String.mk acc.reverse]
  | c :: rest, acc =>
    if c = '\n' then String.mk acc.reverse :: splitLinesAux rest []
    else if c = '\r' then String.mk acc.reverse :: splitLinesCR rest
    else splitLinesAux rest (c :: acc)

/-- state of the splitter just after a lone `\r` has been consumed -/
def splitLinesCR : List Char → List String
  | [] => []
  | c :: rest =>
    if c = '\n' then splitLinesAux rest []
    else if c = '\r' then String.mk [] :: splitLinesCR rest
    else splitLinesAux rest [c]

end

/-- Embeds `readlines` from `src/utils/filesystem.ts`: the list of lines
produced when reading the given file content. -/
def splitLines (s : String) : List String := splitLinesAux s.data []

/-- Embeds `writeLinesToFile` from `src/utils/filesystem.ts`: the byte content
produced by writing each line followed by `os.EOL`. -/
def writeLinesToFileContent (eol : String) (lines : List String) : String :=
  lines.foldl (fun acc line => acc ++ line ++ eol) ""

/-- a line produced or consumed by the line reader contains no terminator -/
def noTerm (s : String) : Bool :=
  s.data.all (fun c => !(c = '\n') && !(c = '\r'))

/-- the platform end-of-line sequence `os.EOL` is one of these two strings -/
def isEol (eol : String) : Prop := eol = "\n" ∨ eol = "\r\n"

/-! ## Constants from `src/sourcemaps/utils.ts`.

`SOURCE_MAPPING_URL_PREF` embeds `SOURCE_MAPPING_URL_COMMENT_PREFIX` and
`SNIPPET_PREF` embeds `SNIPPET_PREFIX`, byte for byte.  In
`SNIPPET_TEMPLATE`, `\x27` is an apostrophe and `\x7b`/`\x7d` are curly
braces. -/

def SOURCE_MAPPING_URL_PREF : String := "//# sourceMappingURL="

def SNIPPET_PREF : String := ";/* splunk-rum sourcemaps inject */"

def SNIPPET_TEMPLATE : String :=
  SNIPPET_PREF ++ "if (typeof window === \x27object\x27) \x7b window.sourceMapIds = window.sourceMapIds || \x7b\x7d; let s = \x27\x27; try \x7b throw new Error(); \x7d catch (e) \x7b s = (e.stack.match(/https?:\\/\\/[^\\s]+?(?::\\d+)?(?=:[\\d]+:[\\d]+)/) || [])[0]; \x7d if (s) \x7bwindow.sourceMapIds[s] = \x27__SOURCE_MAP_ID_PLACEHOLDER__\x27;\x7d\x7d;"

def SOURCE_MAP_ID_PLACEHOLDER : String := "__SOURCE_MAP_ID_PLACEHOLDER__"

/-- JavaScript `String.prototype.startsWith`, on the character sequence. -/
def strStartsWith (s pre : String) : Bool := pre.data.isPrefixOf s.data

/-- suffix test on the character sequence (used for the `$`-anchored regexes) -/
def strEndsWith (s sfx : String) : Bool := sfx.data.isSuffixOf s.data

/-- Embeds `isJsFilePath` (`/\.(js|cjs|mjs)$/`). -/
def isJsFilePath (filePath : String) : Bool :=
  strEndsWith filePath ".js" || strEndsWith filePath ".cjs" || strEndsWith filePath ".mjs"

/-- Embeds `isJsMapFilePath` (`/\.(js|cjs|mjs)\.map$/`). -/
def isJsMapFilePath (filePath : String) : Bool :=
  strEndsWith filePath ".js.map" || strEndsWith filePath ".cjs.map" || strEndsWith filePath ".mjs.map"

/-! ## The snippet construction of `injectFile.ts`.

JavaScript `String.prototype.replace` with a plain-string pattern replaces the
first occurrence only. -/

def replaceFirstList (l pat repl : List Char) : List Char :=
  match l with
  | [] => []
  | c :: rest =>
    if pat.isPrefixOf (c :: rest) then repl ++ (c :: rest).drop pat.length
    else c :: replaceFirstList rest pat repl

/-- Embeds `getCodeSnippet` from `src/sourcemaps/injectFile.ts`:
`SNIPPET_TEMPLATE.replace('__SOURCE_MAP_ID_PLACEHOLDER__', sourceMapId)`. -/
def getCodeSnippet (sourceMapId : String) : String :=
  String.mk (replaceFirstList SNIPPET_TEMPLATE.data SOURCE_MAP_ID_PLACEHOLDER.data sourceMapId.data)

/-! ## The read-phase scan of `injectFile.ts`.

The loop body, for each line at running index `idx`:
```
if (line.startsWith(SOURCE_MAPPING_URL_COMMENT_PREFIX)) sourceMappingUrlIndex = readlinesIndex;
if (line.startsWith(SNIPPET_PREFIX)) { existingSnippetIndex = readlinesIndex; existingSnippet = line; }
```
-/

structure ScanState where
  sourceMappingUrlIndex : Int
  existingSnippetIndex : Int
  existingSnippet : String
  deriving Repr, DecidableEq

def initialScanState : ScanState := ⟨-1, -1, ""⟩

def scanStep (idx : Nat) (line : String) (s : ScanState) : ScanState :=
  let s1 := if strStartsWith line SOURCE_MAPPING_URL_PREF
    then { s with sourceMappingUrlIndex := (idx : Int) } else s
  if strStartsWith line SNIPPET_PREF
    then { s1 with existingSnippetIndex := (idx : Int), existingSnippet := line } else s1

def scanLinesAux : List String → Nat → ScanState → ScanState
  | [], _, s => s
  | line :: rest, idx, s => scanLinesAux rest (idx + 1) (scanStep idx line s)

/-- Embeds the read-phase loop of `injectFile`: fold `scanStep` over the lines
with a running index starting at 0. -/
def scanLines (lines : List String) : ScanState := scanLinesAux lines 0 initialScanState

/-- Embeds JavaScript `Array.prototype.splice(start, deleteCount, ...items)`
restricted to in-range `start` as used by `injectFile`. -/
def jsSplice (l : List String) (start deleteCount : Nat) (items : List String) : List String :=
  l.take start ++ items ++ l.drop (start + deleteCount)

/-- Embeds the pure write-phase decision of `injectFile` (after the dry-run
gate and read phase): `none` when the existing snippet is byte-identical to
the new one (no write happens), otherwise `some` of the new line sequence. -/
def injectLines (lines : List String) (sourceMapId : String) : Option (List String) :=
  let st := scanLines lines
  let snippet := getCodeSnippet sourceMapId
  if st.existingSnippet = snippet then none
  else if st.existingSnippetIndex ≥ 0 then
    some (jsSplice lines st.existingSnippetIndex.toNat 1 [snippet])
  else if st.sourceMappingUrlIndex ≥ 0 then
    some (jsSplice lines st.sourceMappingUrlIndex.toNat 0 [snippet])
  else
    some (lines ++ [snippet])

/-! ## Lemmas about the line reader and writer. -/

lemma splitLinesAux_nil (acc : List Char) :
    splitLinesAux [] acc = if acc.isEmpty then [] else [String.mk acc.reverse] := by
  simp [splitLinesAux]

lemma splitLinesAux_cons_nl (rest : List Char) (acc : List Char) :
    splitLinesAux ('\n' :: rest) acc = String.mk acc.reverse :: splitLinesAux rest [] := by
  simp [splitLinesAux]

lemma splitLinesAux_cons_cr (rest : List Char) (acc : List Char) :
    splitLinesAux ('\r' :: rest) acc = String.mk acc.reverse :: splitLinesCR rest := by
  simp [splitLinesAux]

lemma splitLinesAux_cons_other (c : Char) (rest : List Char) (acc : List Char)
    (h1 : ¬c = '\n') (h2 : ¬c = '\r') :
    splitLinesAux (c :: rest) acc = splitLinesAux rest (c :: acc) := by
  simp [splitLinesAux, h1, h2]

lemma splitLinesCR_cons_nl (rest : List Char) :
    splitLinesCR ('\n' :: rest) = splitLinesAux rest [] := by
  simp [splitLinesCR]

lemma splitLinesAux_chars (l : List Char) (hl : ∀ c ∈ l, ¬c = '\n' ∧ ¬c = '\r') :
    ∀ (rest acc : List Char),
      splitLinesAux (l ++ rest) acc = splitLinesAux rest (l.reverse ++ acc) := by
  induction l with
  | nil => intro rest acc; simp
  | cons c l' ih =>
    intro rest acc
    have hc := hl c (List.mem_cons_self c l')
    rw [List.cons_append, splitLinesAux_cons_other c (l' ++ rest) acc hc.1 hc.2,
      ih (fun d hd => hl d (List.mem_cons_of_mem c hd)) rest (c :: acc)]
    simp

lemma splitLinesAux_eol (eol : String) (heol : isEol eol) (rest acc : List Char) :
    splitLinesAux (eol.data ++ rest) acc = String.mk acc.reverse :: splitLinesAux rest [] := by
  rcases heol with h | h <;> subst h
  · have hd : ("\n" : String).data = ['\n'] := rfl
    rw [hd, List.cons_append, List.nil_append, splitLinesAux_cons_nl]
  · have hd : ("\r\n" : String).data = ['\r', '\n'] := rfl
    rw [hd, List.cons_append, List.cons_append, List.nil_append,
      splitLinesAux_cons_cr, splitLinesCR_cons_nl]

lemma noTerm_iff (s : String) :
    noTerm s = true ↔ ∀ c ∈ s.data, ¬c = '\n' ∧ ¬c = '\r' := by
  simp [noTerm, List.all_eq_true]

lemma writeLines_foldl_data (eol : String) (ls : List String) :
    ∀ (a : String), (ls.foldl (fun acc l => acc ++ l ++ eol) a).data
      = a.data ++ (ls.map (fun l => l.data ++ eol.data)).flatten := by
  induction ls with
  | nil => intro a; simp
  | cons l ls ih => intro a; simp [List.foldl_cons, ih]

lemma writeLinesToFileContent_data (eol : String) (ls : List String) :
    (writeLinesToFileContent eol ls).data = (ls.map (fun l => l.data ++ eol.data)).flatten := by
  simpa [writeLinesToFileContent] using writeLines_foldl_data eol ls ""

lemma string_mk_data (s : String) : String.mk s.data = s := rfl

/-- Round-trip: reading back a file written by `writeLinesToFile` recovers
exactly the written lines, for either end-of-line convention. -/
lemma splitLines_writeLines (eol : String) (heol : isEol eol) (ls : List String)
    (hls : ∀ l ∈ ls, noTerm l = true) :
    splitLines (writeLinesToFileContent eol ls) = ls := by
  unfold splitLines
  rw [writeLinesToFileContent_data]
  induction ls with
  | nil => simp [splitLinesAux_nil]
  | cons l ls ih =>
    rw [List.map_cons, List.flatten_cons, List.append_assoc,
      splitLinesAux_chars l.data ((noTerm_iff l).mp (hls l (List.mem_cons_self l ls))),
      splitLinesAux_eol eol heol]
    rw [List.append_nil, List.reverse_reverse, string_mk_data]
    exact congrArg (l :: ·) (ih (fun x hx => hls x (List.mem_cons_of_mem l hx)))

/-- every line produced by the line reader is terminator-free -/
lemma splitLines_noTerm_strong :
    ∀ (n : Nat) (cs : List Char), cs.length ≤ n → ∀ acc, (∀ c ∈ acc, ¬c = '\n' ∧ ¬c = '\r') →
      (∀ l ∈ splitLinesAux cs acc, noTerm l = true) ∧ (∀ l ∈ splitLinesCR cs, noTerm l = true) := by
  intro n
  induction n with
  | zero =>
    intro cs hcs acc hacc
    have : cs = [] := List.length_eq_zero.mp (Nat.le_zero.mp hcs)
    subst this
    constructor
    · intro l hl
      rw [splitLinesAux_nil] at hl
      rcases em acc.isEmpty with he | he
      · simp [he] at hl
      · simp [he] at hl
        subst hl
        rw [noTerm_iff]
        intro c hc
        exact hacc c (by simpa using hc)
    · intro l hl; simp [splitLinesCR] at hl
  | succ m ih =>
    intro cs hcs acc hacc
    match cs with
    | [] =>
      exact ih [] (Nat.zero_le m) acc hacc
    | c :: rest =>
      have hlen : rest.length ≤ m := by simpa using hcs
      constructor
      · intro l hl
        by_cases h1 : c = '\n'
        · subst h1
          rw [splitLinesAux_cons_nl] at hl
          rcases List.mem_cons.mp hl with h | h
          · subst h
            rw [noTerm_iff]; intro d hd
            exact hacc d (by simpa using hd)
          · exact (ih rest hlen [] (by simp)).1 l h
        · by_cases h2 : c = '\r'
          · subst h2
            rw [splitLinesAux_cons_cr] at hl
            rcases List.mem_cons.mp hl with h | h
            · subst h
              rw [noTerm_iff]; intro d hd
              exact hacc d (by simpa using hd)
            · exact (ih rest hlen [] (by simp)).2 l h
          · rw [splitLinesAux_cons_other c rest acc h1 h2] at hl
            refine (ih rest hlen (c :: acc) ?_).1 l hl
            intro d hd
            rcases List.mem_cons.mp hd with h | h
            · subst h; exact ⟨h1, h2⟩
            · exact hacc d h
      · intro l hl
        by_cases h1 : c = '\n'
        · subst h1
          rw [splitLinesCR_cons_nl] at hl
          exact (ih rest hlen [] (by simp)).1 l hl
        · by_cases h2 : c = '\r'
          · subst h2
            have : splitLinesCR ('\r' :: rest) = String.mk [] :: splitLinesCR rest := by
              simp [splitLinesCR]
            rw [this] at hl
            rcases List.mem_cons.mp hl with h | h
            · subst h; rw [noTerm_iff]; intro d hd; simp at hd
            · exact (ih rest hlen [] (by simp)).2 l h
          · have : splitLinesCR (c :: rest) = splitLinesAux rest [c] := by
              simp [splitLinesCR, h1, h2]
            rw [this] at hl
            refine (ih rest hlen [c] ?_).1 l hl
            intro d hd
            rcases List.mem_cons.mp hd with h | h
            · subst h; exact ⟨h1, h2⟩
            · simp at h

lemma splitLines_noTerm (content : String) :
    ∀ l ∈ splitLines content, noTerm l = true :=
  (splitLines_noTerm_strong content.data.length content.data (Nat.le_refl _) []
    (by simp)).1

/-! ## Characterization of the read-phase scan: each recorded index is the
index of the LAST line matching the corresponding prefix (the loop overwrites
the recorded index on every match). -/

lemma scanStep_url (i : Nat) (line : String) (s : ScanState) :
    (scanStep i line s).sourceMappingUrlIndex =
      if strStartsWith line SOURCE_MAPPING_URL_PREF then (i : Int)
      else s.sourceMappingUrlIndex := by
  simp only [scanStep]
  split_ifs <;> rfl

lemma scanStep_snipIdx (i : Nat) (line : String) (s : ScanState) :
    (scanStep i line s).existingSnippetIndex =
      if strStartsWith line SNIPPET_PREF then (i : Int)
      else s.existingSnippetIndex := by
  simp only [scanStep]
  split_ifs <;> rfl

lemma scanStep_snip (i : Nat) (line : String) (s : ScanState) :
    (scanStep i line s).existingSnippet =
      if strStartsWith line SNIPPET_PREF then line else s.existingSnippet := by
  simp only [scanStep]
  split_ifs <;> rfl

lemma scanLinesAux_snip_inv : ∀ (lines : List String) (i : Nat) (s : ScanState),
    ((scanLinesAux lines i s).existingSnippetIndex = s.existingSnippetIndex ∧
     (scanLinesAux lines i s).existingSnippet = s.existingSnippet ∧
     ∀ l ∈ lines, strStartsWith l SNIPPET_PREF = false) ∨
    (∃ k ln, lines[k]? = some ln ∧ strStartsWith ln SNIPPET_PREF = true ∧
      (∀ j, k < j → ∀ ln', lines[j]? = some ln' → strStartsWith ln' SNIPPET_PREF = false) ∧
      (scanLinesAux lines i s).existingSnippetIndex = ((i + k : Nat) : Int) ∧
      (scanLinesAux lines i s).existingSnippet = ln) := by
  intro lines
  induction lines with
  | nil =>
    intro i s
    left
    exact ⟨rfl, rfl, by simp⟩
  | cons line rest ih =>
    intro i s
    have hrec : scanLinesAux (line :: rest) i s = scanLinesAux rest (i + 1) (scanStep i line s) := rfl
    cases hline : strStartsWith line SNIPPET_PREF with
    | true =>
      rcases ih (i + 1) (scanStep i line s) with ⟨h1, h2, h3⟩ | ⟨k, ln, hget, hln, hafter, hidx, hsnip⟩
      · right
        refine ⟨0, line, by simp, hline, ?_, ?_, ?_⟩
        · intro j hj ln' hget'
          match j, hj with
          | j + 1, _ =>
            exact h3 ln' (List.getElem?_mem (by simpa using hget'))
        · rw [hrec, h1, scanStep_snipIdx, if_pos hline]
          simp
        · rw [hrec, h2, scanStep_snip, if_pos hline]
      · right
        refine ⟨k + 1, ln, by simpa using hget, hln, ?_, ?_, by rw [hrec, hsnip]⟩
        · intro j hj ln' hget'
          match j, hj with
          | j + 1, hj => exact hafter j (by omega) ln' (by simpa using hget')
        · rw [hrec, hidx]
          congr 1
          omega
    | false =>
      rcases ih (i + 1) (scanStep i line s) with ⟨h1, h2, h3⟩ | ⟨k, ln, hget, hln, hafter, hidx, hsnip⟩
      · left
        refine ⟨?_, ?_, ?_⟩
        · rw [hrec, h1, scanStep_snipIdx, if_neg (by simp [hline])]
        · rw [hrec, h2, scanStep_snip, if_neg (by simp [hline])]
        · intro l hl
          rcases List.mem_cons.mp hl with h | h
          · subst h; exact hline
          · exact h3 l h
      · right
        refine ⟨k + 1, ln, by simpa using hget, hln, ?_, ?_, by rw [hrec, hsnip]⟩
        · intro j hj ln' hget'
          match j, hj with
          | j + 1, hj => exact hafter j (by omega) ln' (by simpa using hget')
        · rw [hrec, hidx]
          congr 1
          omega

lemma scanLinesAux_url_inv : ∀ (lines : List String) (i : Nat) (s : ScanState),
    ((scanLinesAux lines i s).sourceMappingUrlIndex = s.sourceMappingUrlIndex ∧
     ∀ l ∈ lines, strStartsWith l SOURCE_MAPPING_URL_PREF = false) ∨
    (∃ k ln, lines[k]? = some ln ∧ strStartsWith ln SOURCE_MAPPING_URL_PREF = true ∧
      (∀ j, k < j → ∀ ln', lines[j]? = some ln' → strStartsWith ln' SOURCE_MAPPING_URL_PREF = false) ∧
      (scanLinesAux lines i s).sourceMappingUrlIndex = ((i + k : Nat) : Int)) := by
  intro lines
  induction lines with
  | nil =>
    intro i s
    left
    exact ⟨rfl, by simp⟩
  | cons line rest ih =>
    intro i s
    have hrec : scanLinesAux (line :: rest) i s = scanLinesAux rest (i + 1) (scanStep i line s) := rfl
    cases hline : strStartsWith line SOURCE_MAPPING_URL_PREF with
    | true =>
      rcases ih (i + 1) (scanStep i line s) with ⟨h1, h3⟩ | ⟨k, ln, hget, hln, hafter, hidx⟩
      · right
        refine ⟨0, line, by simp, hline, ?_, ?_⟩
        · intro j hj ln' hget'
          match j, hj with
          | j + 1, _ =>
            exact h3 ln' (List.getElem?_mem (by simpa using hget'))
        · rw [hrec, h1, scanStep_url, if_pos hline]
          simp
      · right
        refine ⟨k + 1, ln, by simpa using hget, hln, ?_, ?_⟩
        · intro j hj ln' hget'
          match j, hj with
          | j + 1, hj => exact hafter j (by omega) ln' (by simpa using hget')
        · rw [hrec, hidx]
          congr 1
          omega
    | false =>
      rcases ih (i + 1) (scanStep i line s) with ⟨h1, h3⟩ | ⟨k, ln, hget, hln, hafter, hidx⟩
      · left
        refine ⟨?_, ?_⟩
        · rw [hrec, h1, scanStep_url, if_neg (by simp [hline])]
        · intro l hl
          rcases List.mem_cons.mp hl with h | h
          · subst h; exact hline
          · exact h3 l h
      · right
        refine ⟨k + 1, ln, by simpa using hget, hln, ?_, ?_⟩
        · intro j hj ln' hget'
          match j, hj with
          | j + 1, hj => exact hafter j (by omega) ln' (by simpa using hget')
        · rw [hrec, hidx]
          congr 1
          omega

/-- if some line of `lines` at position `k` starts with the snippet prefix and
no later line does, the scan records exactly that line -/
lemma scanLines_snippet_of_last (lines : List String) (k : Nat) (snip : String)
    (hget : lines[k]? = some snip) (hsnip : strStartsWith snip SNIPPET_PREF = true)
    (hafter : ∀ j, k < j → ∀ ln', lines[j]? = some ln' → strStartsWith ln' SNIPPET_PREF = false) :
    (scanLines lines).existingSnippet = snip := by
  rcases scanLinesAux_snip_inv lines 0 initialScanState with ⟨_, _, h3⟩ | ⟨k2, ln2, hget2, hln2, hafter2, _, hsnip2⟩
  · exact absurd (h3 snip (List.getElem?_mem hget)) (by simp [hsnip])
  · have hk : k2 = k := by
      rcases Nat.lt_trichotomy k2 k with h | h | h
      · exact absurd hsnip (by simp [hafter2 k h snip hget])
      · exact h
      · exact absurd hln2 (by simp [hafter k2 h ln2 hget2])
    subst hk
    rw [hget] at hget2
    rw [show (scanLines lines) = scanLinesAux lines 0 initialScanState from rfl, hsnip2]
    exact (Option.some.inj hget2).symm
example : splitLines "a\r\nb" = ["a", "b"] := by decide
example : splitLines "a\rb" = ["a", "b"] := by decide
example : splitLines "a\n" = ["a"] := by decide
example : splitLines "a\n\n" = ["a", ""] := by decide
example : splitLines "" = [] := by decide
example : splitLines "\n" = [""] := by decide
example : writeLinesToFileContent "\n" ["a", "b"] = "a\nb\n" := by decide
example : scanLines ["x", "//# sourceMappingURL=a.map"] =
    ⟨1, -1, ""⟩ := by decide

/-! ## Properties of the constructed snippet line. -/

lemma replaceFirstList_cons (c : Char) (rest pat repl : List Char) :
    replaceFirstList (c :: rest) pat repl =
      if pat.isPrefixOf (c :: rest) then repl ++ (c :: rest).drop pat.length
      else c :: replaceFirstList rest pat repl := rfl

lemma replaceFirstList_append (a b pat repl : List Char) (hc : Char)
    (hpat : pat.head? = some hc) (hmem : hc ∉ a) :
    replaceFirstList (a ++ b) pat repl = a ++ replaceFirstList b pat repl := by
  induction a with
  | nil => simp
  | cons c a' ih =>
    match pat, hpat with
    | p :: ps, hpat =>
      have hp : p = hc := by simpa using hpat
      subst hp
      have hne : (p :: ps).isPrefixOf (c :: (a' ++ b)) = false := by
        have : ¬p = c := fun h => hmem (h ▸ List.mem_cons_self c a')
        simp [List.isPrefixOf, this]
      rw [List.cons_append, replaceFirstList_cons, hne]
      simp only [Bool.false_eq_true, if_false, List.cons_append, List.cons.injEq, true_and]
      exact ih (fun h => hmem (List.mem_cons_of_mem c h))

lemma getCodeSnippet_data (id : String) :
    (getCodeSnippet id).data =
      SNIPPET_PREF.data ++
        replaceFirstList ("if (typeof window === \x27object\x27) \x7b window.sourceMapIds = window.sourceMapIds || \x7b\x7d; let s = \x27\x27; try \x7b throw new Error(); \x7d catch (e) \x7b s = (e.stack.match(/https?:\\/\\/[^\\s]+?(?::\\d+)?(?=:[\\d]+:[\\d]+)/) || [])[0]; \x7d if (s) \x7bwindow.sourceMapIds[s] = \x27__SOURCE_MAP_ID_PLACEHOLDER__\x27;\x7d\x7d;" : String).data
          SOURCE_MAP_ID_PLACEHOLDER.data id.data := by
  show (String.mk (replaceFirstList SNIPPET_TEMPLATE.data SOURCE_MAP_ID_PLACEHOLDER.data id.data)).data = _
  rw [show SNIPPET_TEMPLATE.data = SNIPPET_PREF.data ++ _ from String.data_append _ _]
  rw [replaceFirstList_append _ _ _ _ '_' (by decide) (by decide)]

lemma getCodeSnippet_startsWith (id : String) :
    strStartsWith (getCodeSnippet id) SNIPPET_PREF = true := by
  rw [strStartsWith, getCodeSnippet_data]
  exact List.isPrefixOf_iff_prefix.mpr (List.prefix_append _ _)

lemma mem_replaceFirstList (c : Char) (l pat repl : List Char) :
    c ∈ replaceFirstList l pat repl → c ∈ l ∨ c ∈ repl := by
  induction l with
  | nil => intro h; simp [replaceFirstList] at h
  | cons d rest ih =>
    rw [replaceFirstList_cons]
    split
    · intro h
      rcases List.mem_append.mp h with h | h
      · exact Or.inr h
      · exact Or.inl (List.drop_subset _ _ h)
    · intro h
      rcases List.mem_cons.mp h with h | h
      · exact Or.inl (h ▸ List.mem_cons_self d rest)
      · rcases ih h with h | h
        · exact Or.inl (List.mem_cons_of_mem d h)
        · exact Or.inr h

lemma getCodeSnippet_noTerm (id : String) (hid : noTerm id = true) :
    noTerm (getCodeSnippet id) = true := by
  rw [noTerm_iff]
  intro c hc
  have hc' : c ∈ replaceFirstList SNIPPET_TEMPLATE.data SOURCE_MAP_ID_PLACEHOLDER.data id.data := hc
  rcases mem_replaceFirstList c _ _ _ hc' with h | h
  · exact (noTerm_iff SNIPPET_TEMPLATE).mp (by decide) c h
  · exact (noTerm_iff id).mp hid c h

lemma getCodeSnippet_ne_empty (id : String) : ¬getCodeSnippet id = "" := by
  intro h
  have := getCodeSnippet_startsWith id
  rw [h] at this
  exact absurd this (by decide)

/-! ## The pure result of one `injectFile` invocation. -/

/-- The line sequence present in the file after one non-dry-run `injectFile`
invocation, starting from line sequence `lines`: either the freshly spliced
sequence, or the unchanged input when no write happens. -/
def injectLinesResult (lines : List String) (sourceMapId : String) : List String :=
  (injectLines lines sourceMapId).getD lines

/-- The byte content of the JS file after one non-dry-run `injectFile`
invocation on a file holding `content`: unchanged when the idempotence check
fires, otherwise the bytes written by `writeLinesToFile` (each line followed
by `os.EOL`). -/
def injectResultBytes (eol content sourceMapId : String) : String :=
  match injectLines (splitLines content) sourceMapId with
  | none => content
  | some ls2 => writeLinesToFileContent eol ls2

lemma injectLines_mem (ls : List String) (id : String) (ls2 : List String)
    (h : injectLines ls id = some ls2) :
    ∀ l ∈ ls2, l ∈ ls ∨ l = getCodeSnippet id := by
  simp only [injectLines] at h
  split_ifs at h with h1 h2 h3 <;>
    (injection h with h; subst h) <;> intro l hl
  · rcases List.mem_append.mp hl with h | h
    · rcases List.mem_append.mp h with h | h
      · exact Or.inl (List.take_subset _ _ h)
      · exact Or.inr (by simpa using h)
    · exact Or.inl (List.drop_subset _ _ h)
  · rcases List.mem_append.mp hl with h | h
    · rcases List.mem_append.mp h with h | h
      · exact Or.inl (List.take_subset _ _ h)
      · exact Or.inr (by simpa using h)
    · exact Or.inl (List.drop_subset _ _ h)
  · rcases List.mem_append.mp hl with h | h
    · exact Or.inl h
    · exact Or.inr (by simpa using h)

lemma injectLines_ne_nil (ls : List String) (id : String) (ls2 : List String)
    (h : injectLines ls id = some ls2) : ls2 ≠ [] := by
  simp only [injectLines] at h
  split_ifs at h with h1 h2 h3 <;> (injection h with h; subst h) <;> simp [jsSplice]

/-! ## Idempotence core: the rescan of a freshly written file finds the new
snippet as the last marker line. -/

lemma scanLines_snip_cases (ls : List String) :
    ((scanLines ls).existingSnippetIndex = -1 ∧ (scanLines ls).existingSnippet = "" ∧
      ∀ l ∈ ls, strStartsWith l SNIPPET_PREF = false) ∨
    (∃ (k : Nat) (ln : String), ls[k]? = some ln ∧ strStartsWith ln SNIPPET_PREF = true ∧
      (∀ j, k < j → ∀ ln', ls[j]? = some ln' → strStartsWith ln' SNIPPET_PREF = false) ∧
      (scanLines ls).existingSnippetIndex = (k : Int) ∧
      (scanLines ls).existingSnippet = ln) := by
  simpa [scanLines, initialScanState] using scanLinesAux_snip_inv ls 0 initialScanState

lemma scanLines_url_cases (ls : List String) :
    ((scanLines ls).sourceMappingUrlIndex = -1 ∧
      ∀ l ∈ ls, strStartsWith l SOURCE_MAPPING_URL_PREF = false) ∨
    (∃ (k : Nat) (ln : String), ls[k]? = some ln ∧ strStartsWith ln SOURCE_MAPPING_URL_PREF = true ∧
      (∀ j, k < j → ∀ ln', ls[j]? = some ln' → strStartsWith ln' SOURCE_MAPPING_URL_PREF = false) ∧
      (scanLines ls).sourceMappingUrlIndex = (k : Int)) := by
  simpa [scanLines, initialScanState] using scanLinesAux_url_inv ls 0 initialScanState

lemma jsSplice_cons_form (l : List String) (k d : Nat) (x : String) :
    jsSplice l k d [x] = l.take k ++ x :: l.drop (k + d) := by
  simp [jsSplice]

lemma jsSplice_getElem_self (l : List String) (k d : Nat) (x : String) (hk : k ≤ l.length) :
    (jsSplice l k d [x])[k]? = some x := by
  have hl : (l.take k).length = k := by rw [List.length_take]; omega
  rw [jsSplice_cons_form, List.getElem?_append_right (by omega), hl]
  simp

lemma jsSplice_getElem_after (l : List String) (k d : Nat) (x : String) (j : Nat) (hj : k < j) :
    (jsSplice l k d [x])[j]? = l[j - 1 + d]? := by
  have hl : (l.take k).length = min k l.length := List.length_take k l
  rw [jsSplice_cons_form, List.getElem?_append_right (by omega)]
  have h1 : j - (l.take k).length = (j - (l.take k).length - 1) + 1 := by omega
  rw [h1, List.getElem?_cons_succ, List.getElem?_drop]
  rcases Nat.le_total k l.length with h | h
  · congr 1; omega
  · rw [List.getElem?_eq_none (by omega), List.getElem?_eq_none (by omega)]

/-- After a write performed by `injectFile`, scanning the written lines again
finds the freshly constructed snippet as the (unique last) marker line. -/
lemma injectLines_rescan (ls : List String) (id : String) (ls2 : List String)
    (h : injectLines ls id = some ls2) :
    (scanLines ls2).existingSnippet = getCodeSnippet id := by
  simp only [injectLines] at h
  split_ifs at h with h1 h2 h3 <;> (injection h with h; subst h)
  · -- replace the existing (last) snippet line in place
    rcases scanLines_snip_cases ls with ⟨hneg, _, _⟩ | ⟨k, ln, hget, _, hafter, hidx, _⟩
    · exfalso; rw [hneg] at h2; exact absurd h2 (by decide)
    · rw [hidx]
      have hklen : k < ls.length := (List.getElem?_eq_some.mp hget).1
      have htoNat : ((k : Int)).toNat = k := rfl
      rw [htoNat]
      refine scanLines_snippet_of_last _ k _ (jsSplice_getElem_self _ _ _ _ (Nat.le_of_lt hklen))
        (getCodeSnippet_startsWith id) ?_
      intro j hj ln' hget'
      rw [jsSplice_getElem_after ls k 1 _ j hj] at hget'
      have hjj : j - 1 + 1 = j := by omega
      rw [hjj] at hget'
      exact hafter j hj ln' hget'
  · -- insert before the (last) sourceMappingURL line
    rcases scanLines_snip_cases ls with ⟨_, _, hno⟩ | ⟨k, ln, _, _, _, hidx, _⟩
    · rcases scanLines_url_cases ls with ⟨hneg, _⟩ | ⟨m, lnm, hgetm, _, _, hidxm⟩
      · exfalso; rw [hneg] at h3; exact absurd h3 (by decide)
      · rw [hidxm]
        have hmlen : m < ls.length := (List.getElem?_eq_some.mp hgetm).1
        have htoNat : ((m : Int)).toNat = m := rfl
        rw [htoNat]
        refine scanLines_snippet_of_last _ m _ (jsSplice_getElem_self _ _ _ _ (Nat.le_of_lt hmlen))
          (getCodeSnippet_startsWith id) ?_
        intro j hj ln2 hget2
        rw [jsSplice_getElem_after ls m 0 _ j hj] at hget2
        exact hno ln2 (List.getElem?_mem hget2)
    · exfalso; rw [hidx] at h2; exact h2 (Int.natCast_nonneg k)
  · -- append as the final line
    rcases scanLines_snip_cases ls with ⟨_, _, hno⟩ | ⟨k, ln, _, _, _, hidx, _⟩
    · refine scanLines_snippet_of_last _ ls.length _ ?_ (getCodeSnippet_startsWith id) ?_
      · rw [List.getElem?_append_right (Nat.le_refl _)]
        simp
      · intro j hj ln' hget'
        have hnone : (ls ++ [getCodeSnippet id])[j]? = none := by
          apply List.getElem?_eq_none
          simp
          omega
        rw [hnone] at hget'
        cases hget'
    · exfalso; rw [hidx] at h2; exact h2 (Int.natCast_nonneg k)

/-- A rescan that finds the snippet makes the next invocation a no-op. -/
lemma injectLines_idem (ls : List String) (id : String) (ls2 : List String)
    (h : injectLines ls id = some ls2) : injectLines ls2 id = none := by
  have := injectLines_rescan ls id ls2 h
  simp [injectLines, this]

/-! ## Marker-line counting (for the at-most-one-marker invariant). -/

/-- number of lines starting with the injection-marker prefix -/
def countSnippetLines (lines : List String) : Nat :=
  (lines.filter (fun l => strStartsWith l SNIPPET_PREF)).length

lemma countSnippetLines_append (a b : List String) :
    countSnippetLines (a ++ b) = countSnippetLines a + countSnippetLines b := by
  simp [countSnippetLines]

lemma countSnippetLines_eq_zero (ls : List String)
    (h : ∀ l ∈ ls, strStartsWith l SNIPPET_PREF = false) : countSnippetLines ls = 0 := by
  simp only [countSnippetLines, List.length_eq_zero]
  exact List.filter_eq_nil_iff.mpr (by simpa using h)

lemma countSnippetLines_pos (ls : List String) (l : String) (hl : l ∈ ls)
    (h : strStartsWith l SNIPPET_PREF = true) : 1 ≤ countSnippetLines ls := by
  have : l ∈ ls.filter (fun l => strStartsWith l SNIPPET_PREF) := List.mem_filter.mpr ⟨hl, h⟩
  exact List.length_pos.mpr (List.ne_nil_of_mem this)

lemma countSnippetLines_inject (lines : List String) (id : String) :
    countSnippetLines (injectLinesResult lines id) = max (countSnippetLines lines) 1 := by
  unfold injectLinesResult
  cases hrun : injectLines lines id with
  | none =>
    simp only [Option.getD_none]
    simp only [injectLines] at hrun
    split_ifs at hrun with h1 h2 h3
    · rcases scanLines_snip_cases lines with ⟨_, hempty, _⟩ | ⟨k, ln, hget, hln, _, _, hsnip⟩
      · exact absurd (hempty.symm.trans h1) (Ne.symm (getCodeSnippet_ne_empty id))
      · have h1' : 1 ≤ countSnippetLines lines :=
          countSnippetLines_pos lines ln (List.getElem?_mem hget) hln
        omega
  | some ls2 =>
    simp only [Option.getD_some]
    simp only [injectLines] at hrun
    split_ifs at hrun with h1 h2 h3 <;> (injection hrun with hrun; subst hrun)
    · -- replace branch
      rcases scanLines_snip_cases lines with ⟨hneg, _, _⟩ | ⟨k, ln, hget, hln, _, hidx, _⟩
      · exfalso; rw [hneg] at h2; exact absurd h2 (by decide)
      · rw [hidx]
        have htoNat : ((k : Int)).toNat = k := rfl
        rw [htoNat]
        obtain ⟨hk, hEq⟩ := List.getElem?_eq_some.mp hget
        have hdecomp : lines = lines.take k ++ lines[k] :: lines.drop (k + 1) := by
          rw [← List.drop_eq_getElem_cons hk, List.take_append_drop]
        rw [jsSplice_cons_form]
        have hc2 : countSnippetLines (lines.take k ++ getCodeSnippet id :: lines.drop (k + 1))
            = countSnippetLines (lines.take k) + 1 + countSnippetLines (lines.drop (k + 1)) := by
          rw [show getCodeSnippet id :: lines.drop (k + 1) = [getCodeSnippet id] ++ lines.drop (k + 1) from rfl,
            countSnippetLines_append, countSnippetLines_append]
          have : countSnippetLines [getCodeSnippet id] = 1 := by
            simp [countSnippetLines, getCodeSnippet_startsWith id]
          omega
        have hc1 : countSnippetLines lines
            = countSnippetLines (lines.take k) + 1 + countSnippetLines (lines.drop (k + 1)) := by
          conv_lhs => rw [hdecomp]
          rw [show lines[k] :: lines.drop (k + 1) = [lines[k]] ++ lines.drop (k + 1) from rfl,
            countSnippetLines_append, countSnippetLines_append]
          have : countSnippetLines [lines[k]] = 1 := by
            simp [countSnippetLines, hEq ▸ hln]
          omega
        rw [hc2]
        omega
    · -- insert branch: the input has no marker line at all
      rcases scanLines_snip_cases lines with ⟨_, _, hno⟩ | ⟨k, ln, _, _, _, hidx, _⟩
      · rw [jsSplice_cons_form, show getCodeSnippet id :: lines.drop ((scanLines lines).sourceMappingUrlIndex.toNat + 0)
            = [getCodeSnippet id] ++ lines.drop ((scanLines lines).sourceMappingUrlIndex.toNat + 0) from rfl,
          countSnippetLines_append, countSnippetLines_append]
        have ht : countSnippetLines (lines.take (scanLines lines).sourceMappingUrlIndex.toNat) = 0 :=
          countSnippetLines_eq_zero _ (fun l hl => hno l (List.take_subset _ _ hl))
        have hd : countSnippetLines (lines.drop ((scanLines lines).sourceMappingUrlIndex.toNat + 0)) = 0 :=
          countSnippetLines_eq_zero _ (fun l hl => hno l (List.drop_subset _ _ hl))
        have h1c : countSnippetLines [getCodeSnippet id] = 1 := by
          simp [countSnippetLines, getCodeSnippet_startsWith id]
        have h0 : countSnippetLines lines = 0 := countSnippetLines_eq_zero _ hno
        omega
      · exfalso; rw [hidx] at h2; exact h2 (Int.natCast_nonneg k)
    · -- append branch: the input has no marker line at all
      rcases scanLines_snip_cases lines with ⟨_, _, hno⟩ | ⟨k, ln, _, _, _, hidx, _⟩
      · rw [countSnippetLines_append]
        have h1c : countSnippetLines [getCodeSnippet id] = 1 := by
          simp [countSnippetLines, getCodeSnippet_startsWith id]
        have h0 : countSnippetLines lines = 0 := countSnippetLines_eq_zero _ hno
        omega
      · exfalso; rw [hidx] at h2; exact h2 (Int.natCast_nonneg k)

/-! ## Claim theorems for the injector (C2, C4, C5, C10). -/

/-- C2: running `injectFile` a second time with the same sourceMapId after a
successful first run finds an existing marker line byte-identical to the newly
constructed one, returns before any write (`injectLines … = none` — zero
filesystem writes), and leaves the file bytes identical to the state after the
first run. -/
theorem injectFile_second_run_noop (eol content sourceMapId : String)
    (heol : isEol eol) (hid : noTerm sourceMapId = true) :
    injectLines (splitLines (injectResultBytes eol content sourceMapId)) sourceMapId = none ∧
    injectResultBytes eol (injectResultBytes eol content sourceMapId) sourceMapId
      = injectResultBytes eol content sourceMapId := by
  have hmain :
      injectLines (splitLines (injectResultBytes eol content sourceMapId)) sourceMapId = none := by
    unfold injectResultBytes
    cases hrun : injectLines (splitLines content) sourceMapId with
    | none => exact hrun
    | some ls2 =>
      have hnt : ∀ l ∈ ls2, noTerm l = true := by
        intro l hl
        rcases injectLines_mem _ _ _ hrun l hl with h | h
        · exact splitLines_noTerm content l h
        · rw [h]; exact getCodeSnippet_noTerm _ hid
      rw [splitLines_writeLines eol heol ls2 hnt]
      exact injectLines_idem _ _ _ hrun
  have hnone : ∀ X : String, injectLines (splitLines X) sourceMapId = none →
      injectResultBytes eol X sourceMapId = X := by
    intro X hX
    unfold injectResultBytes
    rw [hX]
  exact ⟨hmain, hnone _ hmain⟩

theorem injectFile_second_run_noop_witness :
    isEol "\n" ∧ noTerm "90605548-63a6-2b9d-b5f7-26216876654e" = true ∧
    (injectLines (splitLines (injectResultBytes "\n" "console.log(1);\n//# sourceMappingURL=a.js.map\n"
        "90605548-63a6-2b9d-b5f7-26216876654e")) "90605548-63a6-2b9d-b5f7-26216876654e" = none ∧
      injectResultBytes "\n" (injectResultBytes "\n" "console.log(1);\n//# sourceMappingURL=a.js.map\n"
          "90605548-63a6-2b9d-b5f7-26216876654e") "90605548-63a6-2b9d-b5f7-26216876654e"
        = injectResultBytes "\n" "console.log(1);\n//# sourceMappingURL=a.js.map\n"
            "90605548-63a6-2b9d-b5f7-26216876654e") :=
  ⟨Or.inl rfl, by decide,
    injectFile_second_run_noop "\n" "console.log(1);\n//# sourceMappingURL=a.js.map\n"
      "90605548-63a6-2b9d-b5f7-26216876654e" (Or.inl rfl) (by decide)⟩

/-- C4 (amended): the line index recorded during the read phase of
`injectFile` for each prefix is the index of the LAST matching line, not the
first: an index of `-1` means no line matches, and a recorded index `k` points
at a matching line with no later match. -/
theorem injectFile_scan_records_last (lines : List String) :
    ((scanLines lines).sourceMappingUrlIndex = -1 ↔
      ∀ l ∈ lines, strStartsWith l SOURCE_MAPPING_URL_PREF = false) ∧
    (∀ k : Nat, (scanLines lines).sourceMappingUrlIndex = (k : Int) →
      (∃ ln, lines[k]? = some ln ∧ strStartsWith ln SOURCE_MAPPING_URL_PREF = true) ∧
      ∀ j, k < j → ∀ ln', lines[j]? = some ln' → strStartsWith ln' SOURCE_MAPPING_URL_PREF = false) ∧
    ((scanLines lines).existingSnippetIndex = -1 ↔
      ∀ l ∈ lines, strStartsWith l SNIPPET_PREF = false) ∧
    (∀ k : Nat, (scanLines lines).existingSnippetIndex = (k : Int) →
      (∃ ln, lines[k]? = some ln ∧ strStartsWith ln SNIPPET_PREF = true ∧
        (scanLines lines).existingSnippet = ln) ∧
      ∀ j, k < j → ∀ ln', lines[j]? = some ln' → strStartsWith ln' SNIPPET_PREF = false) := by
  refine ⟨⟨?_, ?_⟩, ?_, ⟨?_, ?_⟩, ?_⟩
  · intro hneg
    rcases scanLines_url_cases lines with ⟨_, hno⟩ | ⟨k, ln, _, _, _, hidx⟩
    · exact hno
    · exfalso; rw [hidx] at hneg; omega
  · intro hno
    rcases scanLines_url_cases lines with ⟨h, _⟩ | ⟨k, ln, hget, hln, _, _⟩
    · exact h
    · exact absurd hln (by simp [hno ln (List.getElem?_mem hget)])
  · intro k hk
    rcases scanLines_url_cases lines with ⟨hneg, _⟩ | ⟨k', ln, hget, hln, hafter, hidx⟩
    · exfalso; rw [hneg] at hk; omega
    · have : k' = k := by rw [hk] at hidx; omega
      subst this
      exact ⟨⟨ln, hget, hln⟩, hafter⟩
  · intro hneg
    rcases scanLines_snip_cases lines with ⟨_, _, hno⟩ | ⟨k, ln, _, _, _, hidx, _⟩
    · exact hno
    · exfalso; rw [hidx] at hneg; omega
  · intro hno
    rcases scanLines_snip_cases lines with ⟨h, _, _⟩ | ⟨k, ln, hget, hln, _, _, _⟩
    · exact h
    · exact absurd hln (by simp [hno ln (List.getElem?_mem hget)])
  · intro k hk
    rcases scanLines_snip_cases lines with ⟨hneg, _, _⟩ | ⟨k', ln, hget, hln, hafter, hidx, hsnip⟩
    · exfalso; rw [hneg] at hk; omega
    · have : k' = k := by rw [hk] at hidx; omega
      subst this
      exact ⟨⟨ln, hget, hln, hsnip⟩, hafter⟩

/-- C4 counterexample: with two `//# sourceMappingURL=` lines the scan records
index 1, although the first matching line is at index 0 — refuting ‹the
recorded index is the index of the first such line›. -/
theorem injectFile_scan_counterexample :
    strStartsWith "//# sourceMappingURL=a.map" SOURCE_MAPPING_URL_PREF = true ∧
    (["//# sourceMappingURL=a.map", "//# sourceMappingURL=b.map"] : List String)[0]?
      = some "//# sourceMappingURL=a.map" ∧
    ¬(scanLines ["//# sourceMappingURL=a.map", "//# sourceMappingURL=b.map"]).sourceMappingUrlIndex = 0 ∧
    (scanLines ["//# sourceMappingURL=a.map", "//# sourceMappingURL=b.map"]).sourceMappingUrlIndex = 1 := by
  decide

/-- C5 (amended): after a non-dry-run `injectFile` invocation the number of
marker lines in the file is `max (previous count) 1` — so a file with at most
one marker (in particular a marker-free file) ends with exactly one marker and
re-running replaces rather than duplicates, but pre-existing duplicate markers
are NOT reduced to one. -/
theorem injectFile_marker_count (eol content sourceMapId : String)
    (heol : isEol eol) (hid : noTerm sourceMapId = true) :
    countSnippetLines (splitLines (injectResultBytes eol content sourceMapId)) =
      max (countSnippetLines (splitLines content)) 1 := by
  have hcore := countSnippetLines_inject (splitLines content) sourceMapId
  unfold injectLinesResult at hcore
  unfold injectResultBytes
  cases hrun : injectLines (splitLines content) sourceMapId with
  | none => rw [hrun, Option.getD_none] at hcore; exact hcore
  | some ls2 =>
    rw [hrun, Option.getD_some] at hcore
    have hnt : ∀ l ∈ ls2, noTerm l = true := by
      intro l hl
      rcases injectLines_mem _ _ _ hrun l hl with h | h
      · exact splitLines_noTerm content l h
      · rw [h]; exact getCodeSnippet_noTerm _ hid
    rw [splitLines_writeLines eol heol ls2 hnt]
    exact hcore

theorem injectFile_marker_count_witness :
    isEol "\n" ∧ noTerm "deadbeef" = true ∧
    countSnippetLines (splitLines (injectResultBytes "\n" "x = 1;\n" "deadbeef")) =
      max (countSnippetLines (splitLines "x = 1;\n")) 1 :=
  ⟨Or.inl rfl, by decide, injectFile_marker_count "\n" "x = 1;\n" "deadbeef" (Or.inl rfl) (by decide)⟩

/-- C5 counterexample: a file that already holds two marker lines still holds
two marker lines after a non-dry-run invocation — refuting ‹at most one marker
line after any injection run, including files that already contain more than
one marker line›. -/
theorem injectFile_marker_count_counterexample :
    countSnippetLines (splitLines (injectResultBytes "\n"
      (getCodeSnippet "aa" ++ "\n" ++ getCodeSnippet "bb" ++ "\n") "cc")) = 2 := by
  decide

/-- C10: a rewrite performed by `injectFile` re-emits every line followed by
`os.EOL` (including the last line), so all original terminators — `\n` or
`\r\n`, which the reader recognizes uniformly — are replaced by `os.EOL` and
the file always ends with `os.EOL`; the output depends on the original bytes
only through their line decomposition. -/
theorem injectFile_normalizes_line_endings (eol content sourceMapId : String)
    (heol : isEol eol) (ls2 : List String)
    (h : injectLines (splitLines content) sourceMapId = some ls2) :
    injectResultBytes eol content sourceMapId = writeLinesToFileContent eol ls2 ∧
    (injectResultBytes eol content sourceMapId).data
      = (ls2.map (fun l => l.data ++ eol.data)).flatten ∧
    strEndsWith (injectResultBytes eol content sourceMapId) eol = true ∧
    (∀ content', splitLines content' = splitLines content →
      injectResultBytes eol content' sourceMapId = injectResultBytes eol content sourceMapId) ∧
    (∀ a b : String, noTerm a = true →
      splitLines (a ++ "\r\n" ++ b) = splitLines (a ++ "\n" ++ b)) := by
  have h1 : injectResultBytes eol content sourceMapId = writeLinesToFileContent eol ls2 := by
    unfold injectResultBytes
    rw [h]
  refine ⟨h1, ?_, ?_, ?_, ?_⟩
  · rw [h1, writeLinesToFileContent_data]
  · rw [h1, strEndsWith]
    apply List.isSuffixOf_iff_suffix.mpr
    rcases List.eq_nil_or_concat ls2 with hnil | ⟨init, lst, hconcat⟩
    · exact absurd hnil (injectLines_ne_nil _ _ _ h)
    · rw [writeLinesToFileContent_data, hconcat, List.concat_eq_append]
      rw [List.map_append, List.flatten_append]
      simp only [List.map_cons, List.map_nil, List.flatten_cons, List.flatten_nil,
        List.append_nil]
      rw [show (List.map (fun l => l.data ++ eol.data) init).flatten ++ (lst.data ++ eol.data)
          = ((List.map (fun l => l.data ++ eol.data) init).flatten ++ lst.data) ++ eol.data from by
        rw [List.append_assoc]]
      exact List.suffix_append _ _
  · intro content' hsame
    unfold injectResultBytes
    rw [hsame, h]
  · intro a b ha
    unfold splitLines
    have hd1 : (a ++ "\r\n" ++ b).data = a.data ++ (('\r' :: '\n' :: []) ++ b.data) := by
      rw [String.data_append, String.data_append, List.append_assoc]
    have hd2 : (a ++ "\n" ++ b).data = a.data ++ (('\n' :: []) ++ b.data) := by
      rw [String.data_append, String.data_append, List.append_assoc]
    rw [hd1, hd2, splitLinesAux_chars a.data ((noTerm_iff a).mp ha),
      splitLinesAux_chars a.data ((noTerm_iff a).mp ha)]
    rw [show ('\r' :: '\n' :: []) ++ b.data = '\r' :: '\n' :: b.data from rfl,
      show ('\n' :: []) ++ b.data = '\n' :: b.data from rfl]
    rw [splitLinesAux_cons_nl, splitLinesAux_cons_cr, splitLinesCR_cons_nl]

theorem injectFile_normalizes_line_endings_witness :
    isEol "\n" ∧
    injectLines (splitLines "a\r\nb") "xyz" = some ["a", "b", getCodeSnippet "xyz"] ∧
    (injectResultBytes "\n" "a\r\nb" "xyz"
        = writeLinesToFileContent "\n" ["a", "b", getCodeSnippet "xyz"] ∧
      (injectResultBytes "\n" "a\r\nb" "xyz").data
        = (["a", "b", getCodeSnippet "xyz"].map (fun l => l.data ++ ("\n" : String).data)).flatten ∧
      strEndsWith (injectResultBytes "\n" "a\r\nb" "xyz") "\n" = true ∧
      (∀ content', splitLines content' = splitLines "a\r\nb" →
        injectResultBytes "\n" content' "xyz" = injectResultBytes "\n" "a\r\nb" "xyz") ∧
      (∀ a b : String, noTerm a = true →
        splitLines (a ++ "\r\n" ++ b) = splitLines (a ++ "\n" ++ b))) :=
  ⟨Or.inl rfl, by decide,
    injectFile_normalizes_line_endings "\n" "a\r\nb" "xyz" (Or.inl rfl)
      ["a", "b", getCodeSnippet "xyz"] (by decide)⟩

/-! ## SHA-256 (the `node:crypto` digest used by `computeSourceMapId`),
implemented on `Nat` with explicit reduction modulo `2^32`. -/

def w32 (x : Nat) : Nat := x % 4294967296

def rotr32 (x n : Nat) : Nat := w32 ((x >>> n) ||| (x <<< (32 - n)))

def shaBigSigma0 (x : Nat) : Nat := (rotr32 x 2) ^^^ (rotr32 x 13) ^^^ (rotr32 x 22)
def shaBigSigma1 (x : Nat) : Nat := (rotr32 x 6) ^^^ (rotr32 x 11) ^^^ (rotr32 x 25)
def shaSmallSigma0 (x : Nat) : Nat := (rotr32 x 7) ^^^ (rotr32 x 18) ^^^ (x >>> 3)
def shaSmallSigma1 (x : Nat) : Nat := (rotr32 x 17) ^^^ (rotr32 x 19) ^^^ (x >>> 10)
def shaCh (x y z : Nat) : Nat := (x &&& y) ^^^ ((x ^^^ 4294967295) &&& z)
def shaMaj (x y z : Nat) : Nat := (x &&& y) ^^^ (x &&& z) ^^^ (y &&& z)

def shaK : List Nat := [
  1116352408, 1899447441, 3049323471, 3921009573,
  961987163, 1508970993, 2453635748, 2870763221,
  3624381080, 310598401, 607225278, 1426881987,
  1925078388, 2162078206, 2614888103, 3248222580,
  3835390401, 4022224774, 264347078, 604807628,
  770255983, 1249150122, 1555081692, 1996064986,
  2554220882, 2821834349, 2952996808, 3210313671,
  3336571891, 3584528711, 113926993, 338241895,
  666307205, 773529912, 1294757372, 1396182291,
  1695183700, 1986661051, 2177026350, 2456956037,
  2730485921, 2820302411, 3259730800, 3345764771,
  3516065817, 3600352804, 4094571909, 275423344,
  430227734, 506948616, 659060556, 883997877,
  958139571, 1322822218, 1537002063, 1747873779,
  1955562222, 2024104815, 2227730452, 2361852424,
  2428436474, 2756734187, 3204031479, 3329325298]

structure Hash8 where
  a : Nat
  b : Nat
  c : Nat
  d : Nat
  e : Nat
  f : Nat
  g : Nat
  h : Nat

def shaH0 : Hash8 :=
  ⟨1779033703, 3144134277, 1013904242, 2773480762,
   1359893119, 2600822924, 528734635, 1541459225⟩

/-- big-endian byte expansion of a number into `n` bytes -/
def toBytesBE : Nat → Nat → List Nat
  | 0, _ => []
  | n + 1, x => toBytesBE n (x / 256) ++ [x % 256]

/-- group bytes into big-endian 32-bit words -/
def toWordsBE : List Nat → List Nat
  | b0 :: b1 :: b2 :: b3 :: rest => (((b0 * 256 + b1) * 256 + b2) * 256 + b3) :: toWordsBE rest
  | _ => []

/-- SHA-256 padding: `0x80`, zeros to 56 mod 64, then the 64-bit bit length -/
def sha256Pad (msg : List Nat) : List Nat :=
  msg ++ [0x80] ++ List.replicate ((119 - msg.length % 64) % 64) 0 ++ toBytesBE 8 (8 * msg.length)

/-- extend the 16-word block to the 64-word message schedule -/
def buildW (w : List Nat) : Nat → List Nat
  | 0 => w
  | s + 1 =>
    let w2 := w ++ [w32 (shaSmallSigma1 (w.getD (w.length - 2) 0) + w.getD (w.length - 7) 0 +
      shaSmallSigma0 (w.getD (w.length - 15) 0) + w.getD (w.length - 16) 0)]
    buildW w2 s

def compressRound (st : Hash8) (kw : Nat × Nat) : Hash8 :=
  let t1 := w32 (st.h + shaBigSigma1 st.e + shaCh st.e st.f st.g + kw.1 + kw.2)
  let t2 := w32 (shaBigSigma0 st.a + shaMaj st.a st.b st.c)
  ⟨w32 (t1 + t2), st.a, st.b, st.c, w32 (st.d + t1), st.e, st.f, st.g⟩

def compressBlock (hs : Hash8) (block : List Nat) : Hash8 :=
  let w := buildW block 48
  let st := (shaK.zip w).foldl compressRound hs
  ⟨w32 (hs.a + st.a), w32 (hs.b + st.b), w32 (hs.c + st.c), w32 (hs.d + st.d),
   w32 (hs.e + st.e), w32 (hs.f + st.f), w32 (hs.g + st.g), w32 (hs.h + st.h)⟩

def groupWords : List Nat → List (List Nat)
  | w0 :: w1 :: w2 :: w3 :: w4 :: w5 :: w6 :: w7 ::
    w8 :: w9 :: w10 :: w11 :: w12 :: w13 :: w14 :: w15 :: rest =>
    [w0, w1, w2, w3, w4, w5, w6, w7, w8, w9, w10, w11, w12, w13, w14, w15] :: groupWords rest
  | [] => []
  | l => [l]

/-- the eight 32-bit words of the SHA-256 digest of a byte sequence -/
def sha256Words (msg : List Nat) : List Nat :=
  let f := (groupWords (toWordsBE (sha256Pad msg))).foldl compressBlock shaH0
  [f.a, f.b, f.c, f.d, f.e, f.f, f.g, f.h]

def hexDigit (n : Nat) : Char := "0123456789abcdef".data.getD n '0'

/-- big-endian hex expansion of a number into `n` hex digits -/
def toHexBE : Nat → Nat → List Char
  | 0, _ => []
  | n + 1, x => toHexBE n (x / 16) ++ [hexDigit (x % 16)]

/-- lower-case hex string of the SHA-256 digest (`hash.digest('hex')`) -/
def sha256Hex (msg : List Nat) : String :=
  String.mk ((sha256Words msg).map (toHexBE 8)).flatten

example : sha256Hex [] = "e3b0c44298fc1c149afbf4c8996fb92427ae41e4649b934ca495991b7852b855" := by decide

/-! ## `computeSourceMapId` from `src/sourcemaps/computeSourceMapId.ts`.

The node hash object accumulates the streamed chunks (`hash.update(chunk)` per
chunk, in file order) and `hash.digest('hex')` hashes the accumulated bytes. -/

/-- one `hash.update(chunk)` step: the accumulated byte stream grows -/
def hashUpdate (buffered chunk : List Nat) : List Nat := buffered ++ chunk

/-- JavaScript `String.prototype.slice` for `0 ≤ a ≤ b` -/
def strSlice (s : String) (a b : Nat) : String := String.mk ((s.data.drop a).take (b - a))

/-- Embeds `shaToSourceMapId`: slices (0,8) (8,12) (12,16) (16,20) (20,32) of
the hex digest, joined by hyphens. -/
def shaToSourceMapId (sha : String) : String :=
  strSlice sha 0 8 ++ "-" ++ strSlice sha 8 12 ++ "-" ++ strSlice sha 12 16 ++ "-" ++
    strSlice sha 16 20 ++ "-" ++ strSlice sha 20 32

/-- Embeds `computeSourceMapId`: fold the streamed chunks through the hash and
format the hex digest. -/
def computeSourceMapId (chunks : List (List Nat)) : String :=
  shaToSourceMapId (sha256Hex (chunks.foldl hashUpdate []))

/-- Modelled from the spec sentence for comparison: take the first 32 hex
characters of the digest and re-slice them into groups of (8,4,4,4,12) joined
by hyphens. -/
def specSourceMapId (bytes : List Nat) : String :=
  let hex32 := (sha256Hex bytes).data.take 32
  String.mk (hex32.take 8 ++ ['-'] ++ (hex32.drop 8).take 4 ++ ['-'] ++ (hex32.drop 12).take 4 ++
    ['-'] ++ (hex32.drop 16).take 4 ++ ['-'] ++ hex32.drop 20)

def isHexDigitLower (c : Char) : Bool :=
  "0123456789abcdef".data.contains c

/-- split on hyphens (for the `^[0-9a-f]{8}-…$` pattern check) -/
def splitDash : List Char → List (List Char)
  | [] => [[]]
  | c :: rest =>
    if c = '-' then [] :: splitDash rest
    else
      match splitDash rest with
      | [] => [[c]]
      | g :: gs => (c :: g) :: gs

/-- the pattern `^[0-9a-f]{8}-[0-9a-f]{4}-[0-9a-f]{4}-[0-9a-f]{4}-[0-9a-f]{12}$`:
five hyphen-separated groups of lengths 8, 4, 4, 4, 12, all lower-case hex -/
def matchesSourceMapIdPattern (s : String) : Bool :=
  let gs := splitDash s.data
  gs.length == 5 &&
    (gs.getD 0 []).length == 8 && (gs.getD 1 []).length == 4 && (gs.getD 2 []).length == 4 &&
    (gs.getD 3 []).length == 4 && (gs.getD 4 []).length == 12 &&
    gs.all (fun g => g.all isHexDigitLower)

lemma foldl_hashUpdate (chunks : List (List Nat)) :
    ∀ init, chunks.foldl hashUpdate init = init ++ chunks.flatten := by
  induction chunks with
  | nil => intro init; simp
  | cons c cs ih => intro init; simp [hashUpdate, ih (init ++ c)]

lemma toHexBE_length (n x : Nat) : (toHexBE n x).length = n := by
  induction n generalizing x with
  | zero => rfl
  | succ m ih => simp [toHexBE, ih]

lemma hexDigit_isHex (m : Nat) (hm : m < 16) : isHexDigitLower (hexDigit m) = true := by
  interval_cases m <;> decide

lemma toHexBE_all_hex (n x : Nat) : ∀ c ∈ toHexBE n x, isHexDigitLower c = true := by
  induction n generalizing x with
  | zero => intro c hc; simp [toHexBE] at hc
  | succ m ih =>
    intro c hc
    simp only [toHexBE] at hc
    rcases List.mem_append.mp hc with h | h
    · exact ih (x / 16) c h
    · have : c = hexDigit (x % 16) := by simpa using h
      rw [this]
      exact hexDigit_isHex _ (Nat.mod_lt x (by omega))

lemma sha256Hex_length (msg : List Nat) : (sha256Hex msg).data.length = 64 := by
  simp [sha256Hex, sha256Words, toHexBE_length]

lemma sha256Hex_all_hex (msg : List Nat) :
    ∀ c ∈ (sha256Hex msg).data, isHexDigitLower c = true := by
  intro c hc
  have hc' : c ∈ ((sha256Words msg).map (toHexBE 8)).flatten := hc
  obtain ⟨l, hl, hcl⟩ := List.mem_flatten.mp hc'
  obtain ⟨w, _, hw⟩ := List.mem_map.mp hl
  exact toHexBE_all_hex 8 w c (hw ▸ hcl)

lemma isHex_ne_dash (c : Char) (h : isHexDigitLower c = true) : ¬c = '-' := by
  intro hc
  rw [hc] at h
  exact absurd h (by decide)

lemma isHex_ne_term (c : Char) (h : isHexDigitLower c = true) : ¬c = '\n' ∧ ¬c = '\r' := by
  constructor <;> intro hc <;> rw [hc] at h <;> exact absurd h (by decide)

lemma splitDash_cons (c : Char) (rest : List Char) :
    splitDash (c :: rest) =
      if c = '-' then [] :: splitDash rest
      else
        match splitDash rest with
        | [] => [[c]]
        | g :: gs => (c :: g) :: gs := rfl

lemma splitDash_group (g : List Char) (hg : ∀ c ∈ g, ¬c = '-') (rest : List Char) :
    splitDash (g ++ '-' :: rest) = g :: splitDash rest := by
  induction g with
  | nil => simp [splitDash_cons, splitDash]
  | cons c g' ih =>
    rw [List.cons_append, splitDash_cons,
      if_neg (hg c (List.mem_cons_self c g')),
      ih (fun d hd => hg d (List.mem_cons_of_mem c hd))]

lemma splitDash_nodash (g : List Char) (hg : ∀ c ∈ g, ¬c = '-') : splitDash g = [g] := by
  induction g with
  | nil => rfl
  | cons c g' ih =>
    rw [splitDash_cons, if_neg (hg c (List.mem_cons_self c g')),
      ih (fun d hd => hg d (List.mem_cons_of_mem c hd))]

lemma shaToSourceMapId_data (sha : String) :
    (shaToSourceMapId sha).data =
      (sha.data.drop 0).take 8 ++ '-' :: ((sha.data.drop 8).take 4 ++ '-' ::
        ((sha.data.drop 12).take 4 ++ '-' :: ((sha.data.drop 16).take 4 ++ '-' ::
          (sha.data.drop 20).take 12))) := by
  simp [shaToSourceMapId, strSlice, String.data_append]

lemma shaToSourceMapId_pattern (msg : List Nat) :
    matchesSourceMapIdPattern (shaToSourceMapId (sha256Hex msg)) = true := by
  have hlen := sha256Hex_length msg
  have hhex := sha256Hex_all_hex msg
  have hsub : ∀ a b : Nat, ∀ c ∈ ((sha256Hex msg).data.drop a).take b, isHexDigitLower c = true :=
    fun a b c hc => hhex c (List.drop_subset a _ (List.take_subset b _ hc))
  have hnd : ∀ a b : Nat, ∀ c ∈ ((sha256Hex msg).data.drop a).take b, ¬c = '-' :=
    fun a b c hc => isHex_ne_dash c (hsub a b c hc)
  unfold matchesSourceMapIdPattern
  rw [shaToSourceMapId_data]
  rw [splitDash_group _ (hnd 0 8) _, splitDash_group _ (hnd 8 4) _,
    splitDash_group _ (hnd 12 4) _, splitDash_group _ (hnd 16 4) _,
    splitDash_nodash _ (hnd 20 12)]
  simp [List.length_take, List.length_drop, hlen, List.all_eq_true]
  exact ⟨hsub 0 8, hsub 8 4, hsub 12 4, hsub 16 4, hsub 20 12⟩

lemma computeSourceMapId_eq_spec (chunks : List (List Nat)) :
    computeSourceMapId chunks = specSourceMapId chunks.flatten := by
  unfold computeSourceMapId specSourceMapId
  rw [foldl_hashUpdate chunks [], List.nil_append]
  apply String.ext
  rw [shaToSourceMapId_data]
  simp [List.take_take, List.drop_take, List.drop_zero]

/-- C3: `computeSourceMapId` equals the first 32 hex characters of the SHA-256
digest of the whole byte stream (chunks concatenated in file order), re-sliced
into hyphen-joined groups of 8, 4, 4, 4 and 12 characters; consequently the
output always matches `^[0-9a-f]{8}-[0-9a-f]{4}-[0-9a-f]{4}-[0-9a-f]{4}-[0-9a-f]{12}$`
and byte-identical streams always yield the identical SourceMapId. -/
theorem computeSourceMapId_correct (chunks : List (List Nat)) :
    computeSourceMapId chunks = specSourceMapId chunks.flatten ∧
    matchesSourceMapIdPattern (computeSourceMapId chunks) = true ∧
    ∀ chunks2 : List (List Nat), chunks2.flatten = chunks.flatten →
      computeSourceMapId chunks2 = computeSourceMapId chunks := by
  refine ⟨computeSourceMapId_eq_spec chunks, ?_, ?_⟩
  · unfold computeSourceMapId
    exact shaToSourceMapId_pattern _
  · intro chunks2 h2
    rw [computeSourceMapId_eq_spec chunks2, computeSourceMapId_eq_spec chunks, h2]

theorem computeSourceMapId_correct_witness :
    computeSourceMapId [[108, 105, 110, 101, 32, 49, 10], [108, 105, 110, 101, 32, 50, 10]]
      = "90605548-63a6-2b9d-b5f7-26216876654e" ∧
    matchesSourceMapIdPattern
      (computeSourceMapId [[108, 105, 110, 101, 32, 49, 10], [108, 105, 110, 101, 32, 50, 10]]) = true ∧
    computeSourceMapId [[108, 105, 110, 101, 32, 49, 10, 108, 105, 110, 101, 32, 50, 10]]
      = computeSourceMapId [[108, 105, 110, 101, 32, 49, 10], [108, 105, 110, 101, 32, 50, 10]] :=
  ⟨by decide,
   (computeSourceMapId_correct _).2.1,
   (computeSourceMapId_correct _).2.2 _ (by decide)⟩

/-! ## POSIX path primitives from `node:path` used by the pairing code.

`isAbsolute`, `dirname`, `basename` and two-argument `join` (filter empty
parts, join with `/`, normalize `.`/`..`/duplicate separators), mirroring the
node `path.posix` implementation. -/

def pathIsAbsolute (p : String) : Bool := strStartsWith p "/"

/-- split a character list on a separator character -/
def splitOnChar (sep : Char) : List Char → List (List Char)
  | [] => [[]]
  | c :: rest =>
    if c = sep then [] :: splitOnChar sep rest
    else
      match splitOnChar sep rest with
      | [] => [[c]]
      | g :: gs => (c :: g) :: gs

/-- the segment stack of node's `normalizeString`, most recent first -/
def normSegsRev (segs : List (List Char)) (allowAboveRoot : Bool) : List (List Char) :=
  segs.foldl
    (fun acc seg =>
      if seg = [] ∨ seg = ['.'] then acc
      else if seg = ['.', '.'] then
        match acc with
        | [] => if allowAboveRoot then [['.', '.']] else []
        | top :: rest =>
          if top = ['.', '.'] then (if allowAboveRoot then ['.', '.'] :: top :: rest else top :: rest)
          else rest
      else seg :: acc)
    []

/-- join segments with `/` (JavaScript `Array.prototype.join('/')`) -/
def joinSegsChar : List (List Char) → List Char
  | [] => []
  | [s] => s
  | s :: rest => s ++ '/' :: joinSegsChar rest

/-- `path.posix.normalize` -/
def posixNormalize (p : String) : String :=
  if p.data = [] then "." else
  let abs := pathIsAbsolute p
  let trail := strEndsWith p "/"
  let core := joinSegsChar ((normSegsRev (splitOnChar '/' p.data) (!abs)).reverse)
  if core = [] then (if abs then "/" else if trail then "./" else ".")
  else String.mk ((if abs then '/' :: core else core) ++ (if trail then ['/'] else []))

/-- `path.posix.join(a, b)` -/
def posixJoin2 (a b : String) : String :=
  let parts := [a, b].filter (fun s => !(s == ""))
  if parts = [] then "."
  else posixNormalize (String.mk (joinSegsChar (parts.map String.data)))

/-- `path.posix.dirname` -/
def posixDirname (p : String) : String :=
  match p.data with
  | [] => "."
  | c0 :: rest =>
    let hasRoot := c0 = '/'
    let rb2 := ((rest.reverse.dropWhile (fun c => c = '/')).dropWhile (fun c => !(c = '/')))
    if rb2 = [] then (if hasRoot then "/" else ".")
    else if hasRoot ∧ rb2.length = 1 then "//"
    else String.mk (p.data.take rb2.length)

/-- `path.posix.basename` (no extension argument) -/
def posixBasename (p : String) : String :=
  String.mk (((p.data.reverse.dropWhile (fun c => c = '/')).takeWhile (fun c => !(c = '/'))).reverse)

example : posixDirname "a/b.js" = "a" := by decide
example : posixDirname "/a" = "/" := by decide
example : posixDirname "b.js" = "." := by decide
example : posixBasename "a/b.js" = "b.js" := by decide
example : posixJoin2 "a" "b.js.map" = "a/b.js.map" := by decide
example : posixJoin2 "a/b" "../c.map" = "a/c.map" := by decide
example : posixJoin2 "." "m.map" = "m.map" := by decide
example : posixJoin2 "a" "" = "a" := by decide

/-! ## `discoverJsMapFilePath` from `src/sourcemaps/discoverJsMapFilePath.ts`,
with its read set and its log lines made explicit. -/

inductive LogLevel
  | error
  | warn
  | info
  | debug
  deriving Repr, DecidableEq

/-- JavaScript `String.prototype.trim` -/
def strTrim (s : String) : String :=
  String.mk (((s.data.dropWhile Char.isWhitespace).reverse.dropWhile Char.isWhitespace).reverse)

/-- JavaScript `String.prototype.slice(n)` -/
def strDrop (s : String) (n : Nat) : String := String.mk (s.data.drop n)

/-- Embeds `resolveSourceMappingUrlToFilePath`: parse the sourceMappingURL
comment to a file path, or `none` when the value is unsupported; returns the
log lines it emits. -/
def resolveSourceMappingUrlToFilePath (line jsFilePath : String)
    (allJsMapFilePaths : List String) : Option String × List (LogLevel × String) :=
  let url := strTrim (strDrop line SOURCE_MAPPING_URL_PREF.length)
  if pathIsAbsolute url || strStartsWith url "http://" || strStartsWith url "https://" ||
      strStartsWith url "data:" then
    (none,
      [(LogLevel.debug, "skipping source map pair (unsupported sourceMappingURL comment):"),
       (LogLevel.debug, "  - " ++ jsFilePath),
       (LogLevel.debug, "  - " ++ url)])
  else
    let matchingJsMapFilePath := posixJoin2 (posixDirname jsFilePath) url
    if !(allJsMapFilePaths.contains matchingJsMapFilePath) then
      (none,
        [(LogLevel.debug, "skipping source map pair (file not in provided directory):"),
         (LogLevel.debug, "  - " ++ jsFilePath),
         (LogLevel.debug, "  - " ++ url),
         (LogLevel.warn, "skipping " ++ jsFilePath ++
           ", which is requesting a source map file outside of the provided --path")])
    else
      (some matchingJsMapFilePath,
        [(LogLevel.debug, "found source map pair (using sourceMappingURL comment):"),
         (LogLevel.debug, "  - " ++ jsFilePath),
         (LogLevel.debug, "  - " ++ matchingJsMapFilePath)])

/-- a filesystem: maps a path to its byte content, or `none` when any attempt
to open or read it fails -/
def Fs : Type := String → Option String

instance : DecidableEq (Except Unit (Option String))
  | .error (), .error () => isTrue rfl
  | .error (), .ok _ => isFalse (fun he => Except.noConfusion he)
  | .ok _, .error () => isFalse (fun he => Except.noConfusion he)
  | .ok x, .ok y =>
    if h : x = y then isTrue (congrArg Except.ok h)
    else isFalse (fun he => h (Except.ok.inj he))

structure DiscoverResult where
  result : Except Unit (Option String)
  reads : List String
  logs : List (LogLevel × String)
  deriving DecidableEq

/-- Embeds `discoverJsMapFilePath`: convention match first (pure set lookup),
then the first `//# sourceMappingURL=` line of the JS file; `reads` records
every file the call opened, `Except.error` models the rethrown read error. -/
def discoverJsMapFilePath (fs : Fs) (jsFilePath : String) (allJsMapFilePaths : List String) :
    DiscoverResult :=
  if allJsMapFilePaths.contains (jsFilePath ++ ".map") then
    { result := .ok (some (jsFilePath ++ ".map")),
      reads := [],
      logs := [(LogLevel.debug, "found source map pair (using standard naming convention):"),
               (LogLevel.debug, "  - " ++ jsFilePath),
               (LogLevel.debug, "  - " ++ jsFilePath ++ ".map")] }
  else
    match fs jsFilePath with
    | none => { result := .error (), reads := [jsFilePath], logs := [] }
    | some content =>
      match (splitLines content).find? (fun l => strStartsWith l SOURCE_MAPPING_URL_PREF) with
      | none =>
        { result := .ok none,
          reads := [jsFilePath],
          logs := [(LogLevel.debug, "no source map found for " ++ jsFilePath)] }
      | some line =>
        let r := resolveSourceMappingUrlToFilePath line jsFilePath allJsMapFilePaths
        { result := .ok r.1,
          reads := [jsFilePath],
          logs := r.2 ++ (if r.1 = none then [(LogLevel.debug, "no source map found for " ++ jsFilePath)] else []) }

/-! ## Claim theorems for the pair resolver (C6, C7). -/

/-- C6: when `<jsPath>.map` is in the known-map set, `discoverJsMapFilePath`
returns it immediately and performs no file I/O beyond the set lookup: its
read set is empty, so in particular the JavaScript file is never opened. -/
theorem discover_convention_fast_path (fs : Fs) (jsFilePath : String)
    (allJsMapFilePaths : List String)
    (h : (jsFilePath ++ ".map") ∈ allJsMapFilePaths) :
    (discoverJsMapFilePath fs jsFilePath allJsMapFilePaths).result
      = .ok (some (jsFilePath ++ ".map")) ∧
    (discoverJsMapFilePath fs jsFilePath allJsMapFilePaths).reads = [] := by
  unfold discoverJsMapFilePath
  rw [if_pos (List.elem_iff.mpr h)]
  exact ⟨rfl, rfl⟩

theorem discover_convention_fast_path_witness :
    ("a/b.js.map" : String) ∈ ["a/b.js.map"] ∧
    ((discoverJsMapFilePath (fun _ => none) "a/b.js" ["a/b.js.map"]).result
        = .ok (some "a/b.js.map") ∧
      (discoverJsMapFilePath (fun _ => none) "a/b.js" ["a/b.js.map"]).reads = []) :=
  ⟨by decide,
    by
      have h := discover_convention_fast_path (fun _ => none) "a/b.js" ["a/b.js.map"] (by decide)
      simpa using h⟩

/-- C7: when the convention match fails and the first `//# sourceMappingURL=`
line carries an absolute, `http://`, `https://` or `data:` URL, the resolver
returns no match; for a relative URL it resolves against the JS file's
directory and returns the result exactly when it is in the known-map set,
otherwise no match with a warning logged. -/
theorem discover_directive_resolution (fs : Fs) (jsFilePath : String)
    (allJsMapFilePaths : List String) (content line : String)
    (hconv : (jsFilePath ++ ".map") ∉ allJsMapFilePaths)
    (hfs : fs jsFilePath = some content)
    (hline : (splitLines content).find? (fun l => strStartsWith l SOURCE_MAPPING_URL_PREF)
      = some line) :
    ((pathIsAbsolute (strTrim (strDrop line SOURCE_MAPPING_URL_PREF.length)) ||
        strStartsWith (strTrim (strDrop line SOURCE_MAPPING_URL_PREF.length)) "http://" ||
        strStartsWith (strTrim (strDrop line SOURCE_MAPPING_URL_PREF.length)) "https://" ||
        strStartsWith (strTrim (strDrop line SOURCE_MAPPING_URL_PREF.length)) "data:") = true →
      (discoverJsMapFilePath fs jsFilePath allJsMapFilePaths).result = .ok none) ∧
    ((pathIsAbsolute (strTrim (strDrop line SOURCE_MAPPING_URL_PREF.length)) ||
        strStartsWith (strTrim (strDrop line SOURCE_MAPPING_URL_PREF.length)) "http://" ||
        strStartsWith (strTrim (strDrop line SOURCE_MAPPING_URL_PREF.length)) "https://" ||
        strStartsWith (strTrim (strDrop line SOURCE_MAPPING_URL_PREF.length)) "data:") = false →
      (posixJoin2 (posixDirname jsFilePath) (strTrim (strDrop line SOURCE_MAPPING_URL_PREF.length))
            ∈ allJsMapFilePaths →
        (discoverJsMapFilePath fs jsFilePath allJsMapFilePaths).result
          = .ok (some (posixJoin2 (posixDirname jsFilePath)
              (strTrim (strDrop line SOURCE_MAPPING_URL_PREF.length))))) ∧
      (posixJoin2 (posixDirname jsFilePath) (strTrim (strDrop line SOURCE_MAPPING_URL_PREF.length))
            ∉ allJsMapFilePaths →
        (discoverJsMapFilePath fs jsFilePath allJsMapFilePaths).result = .ok none ∧
        (LogLevel.warn, "skipping " ++ jsFilePath ++
            ", which is requesting a source map file outside of the provided --path")
          ∈ (discoverJsMapFilePath fs jsFilePath allJsMapFilePaths).logs)) := by
  have hcontains : allJsMapFilePaths.contains (jsFilePath ++ ".map") = false := by
    rcases hb : allJsMapFilePaths.contains (jsFilePath ++ ".map") with _ | _
    · rfl
    · exact absurd (List.elem_iff.mp hb) hconv
  unfold discoverJsMapFilePath
  rw [hcontains]
  simp only [Bool.false_eq_true, if_false, hfs, hline]
  simp only [resolveSourceMappingUrlToFilePath]
  constructor
  · intro habs
    rw [habs]
    simp
  · intro habs
    rw [habs]
    simp only [Bool.false_eq_true, if_false]
    constructor
    · intro hmem
      have hc : allJsMapFilePaths.contains
          (posixJoin2 (posixDirname jsFilePath)
            (strTrim (strDrop line SOURCE_MAPPING_URL_PREF.length))) = true :=
        List.elem_iff.mpr hmem
      rw [hc]
      simp
    · intro hmem
      have hcf : allJsMapFilePaths.contains
          (posixJoin2 (posixDirname jsFilePath)
            (strTrim (strDrop line SOURCE_MAPPING_URL_PREF.length))) = false := by
        rcases hb : allJsMapFilePaths.contains (posixJoin2 (posixDirname jsFilePath)
            (strTrim (strDrop line SOURCE_MAPPING_URL_PREF.length))) with _ | _
        · rfl
        · exact absurd (List.elem_iff.mp hb) hmem
      rw [hcf]
      simp

theorem discover_directive_resolution_witness :
    (("a/b.js.map" : String) ∉ (["a/m.js.map"] : List String)) ∧
    ((fun p => if p = "a/b.js" then some "//# sourceMappingURL=m.js.map" else none) : Fs) "a/b.js"
      = some "//# sourceMappingURL=m.js.map" ∧
    (splitLines "//# sourceMappingURL=m.js.map").find?
        (fun l => strStartsWith l SOURCE_MAPPING_URL_PREF) = some "//# sourceMappingURL=m.js.map" ∧
    ((pathIsAbsolute (strTrim (strDrop "//# sourceMappingURL=m.js.map" SOURCE_MAPPING_URL_PREF.length)) ||
        strStartsWith (strTrim (strDrop "//# sourceMappingURL=m.js.map" SOURCE_MAPPING_URL_PREF.length)) "http://" ||
        strStartsWith (strTrim (strDrop "//# sourceMappingURL=m.js.map" SOURCE_MAPPING_URL_PREF.length)) "https://" ||
        strStartsWith (strTrim (strDrop "//# sourceMappingURL=m.js.map" SOURCE_MAPPING_URL_PREF.length)) "data:") = false) ∧
    (discoverJsMapFilePath
        ((fun p => if p = "a/b.js" then some "//# sourceMappingURL=m.js.map" else none) : Fs)
        "a/b.js" ["a/m.js.map"]).result = .ok (some "a/m.js.map") := by
  refine ⟨by decide, by decide, by decide, by decide, ?_⟩
  have h := (discover_directive_resolution
    ((fun p => if p = "a/b.js" then some "//# sourceMappingURL=m.js.map" else none) : Fs)
    "a/b.js" ["a/m.js.map"] "//# sourceMappingURL=m.js.map" "//# sourceMappingURL=m.js.map"
    (by decide) (by decide) (by decide)).2 (by decide)
  have h2 := h.1 (by decide)
  have h3 : posixJoin2 (posixDirname "a/b.js")
      (strTrim (strDrop "//# sourceMappingURL=m.js.map" SOURCE_MAPPING_URL_PREF.length))
      = "a/m.js.map" := by decide
  rw [h3] at h2
  exact h2

/-! ## `wasInjectAlreadyRun` from `src/sourcemaps/wasInjectAlreadyRun.ts`.

The collaborators are modelled explicitly: `existsSync`/`readFile` as a
`VerifierFs` (a failing read is `none` and models the thrown exception), and
`JSON.parse` as a function to the parse outcome — `none` models a parse throw,
otherwise the value of the `file` property (absent, a string, or some other
JSON value whose truthiness is recorded). -/

inductive JsonPrim
  | jstr (s : String)
  | jother (truthy : Bool)
  deriving DecidableEq

structure VerifierFs where
  existsSync : String → Bool
  read : String → Option String

structure WasInjectAlreadyRunResult where
  result : Bool
  message : String
  deriving DecidableEq

/-- the `jsMapFilePath.replace(/.map$/, '')` convention guess: the regex
matches one arbitrary character followed by `map` at the end -/
def replaceMapExt (p : String) : String :=
  if 4 ≤ p.data.length ∧ strEndsWith p "map" = true then String.mk (p.data.take (p.data.length - 4))
  else p

/-- JavaScript `String.prototype.includes`: does `pat` occur as a contiguous
substring? -/
def listContainsSub (pat : List Char) : List Char → Bool
  | [] => pat.isEmpty
  | c :: rest => pat.isPrefixOf (c :: rest) || listContainsSub pat rest

/-- Embeds `isSnippetPresent`: a loose substring check for the registry name. -/
def isSnippetPresent (content : String) : Bool :=
  listContainsSub "window.sourceMapIds".data content.data

/-- Embeds `discoverJsFilePath` (the verifier's pairing): convention check via
`existsSync` first, then the map file's JSON `file` field resolved against the
map's directory; `Except.error` models an exception escaping to the caller. -/
def discoverJsFilePath (fs : VerifierFs) (parse : String → Option (Option JsonPrim))
    (jsMapFilePath : String) : Except Unit (Option String) :=
  let pathWithoutMapExtension := replaceMapExt jsMapFilePath
  if fs.existsSync pathWithoutMapExtension then .ok (some pathWithoutMapExtension)
  else
    match fs.read jsMapFilePath with
    | none => .error ()
    | some contents =>
      match parse contents with
      | none => .error ()
      | some fileField =>
        match fileField with
        | some (.jstr s) =>
          if !(s == "") then .ok (some (posixJoin2 (posixDirname jsMapFilePath) s))
          else .ok none
        | _ => .ok none

/-- Embeds `wasInjectAlreadyRun`: the try/catch body becomes a total match, so
every failure path returns the default could-not-verify result. -/
def wasInjectAlreadyRun (fs : VerifierFs) (parse : String → Option (Option JsonPrim))
    (jsMapFilePath : String) : WasInjectAlreadyRunResult :=
  let DEFAULT_WARN_MESSAGE := "Could not verify that the sourceMapId for " ++ jsMapFilePath ++
    " was injected into its related JavaScript file."
  match discoverJsFilePath fs parse jsMapFilePath with
  | .error _ => { result := false, message := DEFAULT_WARN_MESSAGE }
  | .ok none => { result := false, message := DEFAULT_WARN_MESSAGE }
  | .ok (some jsFilePath) =>
    match fs.read jsFilePath with
    | none => { result := false, message := DEFAULT_WARN_MESSAGE }
    | some contents =>
      if isSnippetPresent contents then { result := true, message := "" }
      else
        { result := false,
          message := "No sourceMapId was found in the related JavaScript file " ++ jsFilePath ++
            ". Make sure to run the \"sourcemaps inject\" command in addition to \"sourcemaps upload\".  Use --help to learn more." }

/-- C8: `wasInjectAlreadyRun` always returns a `{result, message}` value (the
embedding is a total function: every failure of the locate/parse/read pipeline
is caught); the result is `true` exactly when the paired JS file is located,
its read succeeds, and its contents contain `window.sourceMapIds`; and on a
locate failure, parse failure or read failure it returns `false` with the
could-not-verify message. -/
theorem wasInjectAlreadyRun_spec (fs : VerifierFs) (parse : String → Option (Option JsonPrim))
    (jsMapFilePath : String) :
    ((wasInjectAlreadyRun fs parse jsMapFilePath).result = true ↔
      ∃ jsFilePath contents,
        discoverJsFilePath fs parse jsMapFilePath = .ok (some jsFilePath) ∧
        fs.read jsFilePath = some contents ∧
        isSnippetPresent contents = true) ∧
    ((discoverJsFilePath fs parse jsMapFilePath = .error () ∨
        discoverJsFilePath fs parse jsMapFilePath = .ok none ∨
        (∃ jsFilePath, discoverJsFilePath fs parse jsMapFilePath = .ok (some jsFilePath) ∧
          fs.read jsFilePath = none)) →
      (wasInjectAlreadyRun fs parse jsMapFilePath).result = false ∧
      (wasInjectAlreadyRun fs parse jsMapFilePath).message =
        "Could not verify that the sourceMapId for " ++ jsMapFilePath ++
          " was injected into its related JavaScript file.") := by
  constructor
  · constructor
    · intro hres
      rcases hdisc : discoverJsFilePath fs parse jsMapFilePath with u | ojs
      · simp [wasInjectAlreadyRun, hdisc] at hres
      · rcases ojs with _ | js
        · simp [wasInjectAlreadyRun, hdisc] at hres
        · rcases hread : fs.read js with _ | contents
          · simp [wasInjectAlreadyRun, hdisc, hread] at hres
          · rcases hsnip : isSnippetPresent contents with _ | _
            · simp [wasInjectAlreadyRun, hdisc, hread, hsnip] at hres
            · exact ⟨js, contents, rfl, hread, hsnip⟩
    · rintro ⟨js, contents, hdisc, hread, hsnip⟩
      simp [wasInjectAlreadyRun, hdisc, hread, hsnip]
  · intro hfail
    rcases hfail with hdisc | hdisc | ⟨js, hdisc, hread⟩
    · simp [wasInjectAlreadyRun, hdisc]
    · simp [wasInjectAlreadyRun, hdisc]
    · simp [wasInjectAlreadyRun, hdisc, hread]

theorem wasInjectAlreadyRun_spec_witness :
    (wasInjectAlreadyRun
        ⟨fun p => p == "bundle.js", fun p => if p = "bundle.js" then some ";window.sourceMapIds = 1;" else none⟩
        (fun _ => none) "bundle.js.map").result = true ∧
    (wasInjectAlreadyRun
        ⟨fun _ => false, fun _ => none⟩
        (fun _ => none) "bundle.js.map").result = false :=
  ⟨(wasInjectAlreadyRun_spec
      ⟨fun p => p == "bundle.js", fun p => if p = "bundle.js" then some ";window.sourceMapIds = 1;" else none⟩
      (fun _ => none) "bundle.js.map").1.mpr
    ⟨"bundle.js", ";window.sourceMapIds = 1;", by decide, by decide, by decide⟩,
   ((wasInjectAlreadyRun_spec ⟨fun _ => false, fun _ => none⟩ (fun _ => none) "bundle.js.map").2
      (Or.inl (by decide))).1⟩

/-! ## The mutating phase as explicit filesystem operations.

`overwriteFileContents` (`src/utils/filesystem.ts`) performs: create/truncate
the temp file, append each line and `os.EOL` to it, then rename the temp file
over the target.  Interruption is modelled as executing only a prefix of the
operation list. -/

inductive FsOp
  | truncate (path : String)
  | append (path : String) (data : String)
  | rename (src : String) (dst : String)
  | remove (path : String)
  deriving DecidableEq, Repr

def applyOp (fs : Fs) : FsOp → Fs
  | .truncate p => fun q => if q = p then some "" else fs q
  | .append p d => fun q => if q = p then some ((fs p).getD "" ++ d) else fs q
  | .rename src dst => fun q => if q = dst then fs src else if q = src then none else fs q
  | .remove p => fun q => if q = p then none else fs q

def applyOps (fs : Fs) (ops : List FsOp) : Fs := ops.foldl applyOp fs

/-- the `write(line); write(os.EOL)` pairs of the `writeLinesToFile` loop -/
def appendOpsFor (path eol : String) : List String → List FsOp
  | [] => []
  | l :: rest => .append path l :: .append path eol :: appendOpsFor path eol rest

/-- Embeds `writeLinesToFile path lines`: `createWriteStream` creates or
truncates the file, then each line is written followed by `os.EOL`. -/
def writeLinesToFileOps (eol path : String) (lines : List String) : List FsOp :=
  FsOp.truncate path :: appendOpsFor path eol lines

def TEMP_FILE_EXTENSION : String := ".splunk.tmp"

/-- Embeds `getTempFilePath`: `path/to/file.js` becomes
`path/to/.file.js.splunk.tmp`. -/
def getTempFilePath (filePath : String) : String :=
  posixJoin2 (posixDirname filePath) ("." ++ posixBasename filePath ++ TEMP_FILE_EXTENSION)

/-- Embeds `overwriteFileContents`: write the temp file, then rename it over
the target. -/
def overwriteFileContentsOps (eol filePath : String) (lines : List String) : List FsOp :=
  writeLinesToFileOps eol (getTempFilePath filePath) lines ++
    [FsOp.rename (getTempFilePath filePath) filePath]

example : getTempFilePath "path/to/file.js" = "path/to/.file.js.splunk.tmp" := by decide

/-- the paths an operation can change -/
def opTouches : FsOp → List String
  | .truncate p => [p]
  | .append p _ => [p]
  | .rename src dst => [src, dst]
  | .remove p => [p]

lemma applyOp_untouched (fs : Fs) (op : FsOp) (q : String) (h : q ∉ opTouches op) :
    applyOp fs op q = fs q := by
  cases op with
  | truncate p => simp only [opTouches, List.mem_singleton] at h; simp [applyOp, h]
  | append p d => simp only [opTouches, List.mem_singleton] at h; simp [applyOp, h]
  | rename src dst =>
    simp only [opTouches, List.mem_cons, List.mem_singleton] at h
    push_neg at h
    simp [applyOp, h.1, h.2]
  | remove p => simp only [opTouches, List.mem_singleton] at h; simp [applyOp, h]

lemma applyOps_untouched (fs : Fs) (ops : List FsOp) (q : String)
    (h : ∀ op ∈ ops, q ∉ opTouches op) : applyOps fs ops q = fs q := by
  induction ops generalizing fs with
  | nil => rfl
  | cons op rest ih =>
    show applyOps (applyOp fs op) rest q = fs q
    rw [ih (applyOp fs op) (fun o ho => h o (List.mem_cons_of_mem op ho)),
      applyOp_untouched fs op q (h op (List.mem_cons_self op rest))]

lemma applyOps_append_ops (fs : Fs) (a b : List FsOp) :
    applyOps fs (a ++ b) = applyOps (applyOps fs a) b := by
  unfold applyOps
  rw [List.foldl_append]

lemma appendOpsFor_touches (path eol : String) (lines : List String) :
    ∀ op ∈ appendOpsFor path eol lines, opTouches op = [path] := by
  induction lines with
  | nil => intro op h; simp [appendOpsFor] at h
  | cons l rest ih =>
    intro op h
    rcases List.mem_cons.mp h with h | h
    · subst h; rfl
    · rcases List.mem_cons.mp h with h | h
      · subst h; rfl
      · exact ih op h

lemma writeLinesToFileOps_touches (eol path : String) (lines : List String) :
    ∀ op ∈ writeLinesToFileOps eol path lines, opTouches op = [path] := by
  intro op h
  rcases List.mem_cons.mp h with h | h
  · subst h; rfl
  · exact appendOpsFor_touches path eol lines op h

lemma appendOpsFor_content (path eol : String) :
    ∀ (lines : List String) (fs : Fs) (acc : String), fs path = some acc →
      applyOps fs (appendOpsFor path eol lines) path
        = some (lines.foldl (fun a l => a ++ l ++ eol) acc) := by
  intro lines
  induction lines with
  | nil => intro fs acc h; exact h
  | cons l rest ih =>
    intro fs acc h
    show applyOps (applyOp (applyOp fs (.append path l)) (.append path eol)) (appendOpsFor path eol rest) path = _
    have h1 : applyOp fs (.append path l) path = some (acc ++ l) := by
      simp [applyOp, h]
    have h2 : applyOp (applyOp fs (.append path l)) (.append path eol) path
        = some (acc ++ l ++ eol) := by
      simp [applyOp, h]
    rw [ih _ _ h2]
    rfl

lemma writeLinesToFileOps_content (eol path : String) (lines : List String) (fs : Fs) :
    applyOps fs (writeLinesToFileOps eol path lines) path
      = some (writeLinesToFileContent eol lines) := by
  show applyOps (applyOp fs (.truncate path)) (appendOpsFor path eol lines) path = _
  have h0 : applyOp fs (.truncate path) path = some "" := by simp [applyOp]
  rw [appendOpsFor_content path eol lines _ "" h0]
  rfl

/-! ## The temp path never collides with the target JS file. -/

lemma splitOnChar_cons (sep c : Char) (rest : List Char) :
    splitOnChar sep (c :: rest) =
      if c = sep then [] :: splitOnChar sep rest
      else
        match splitOnChar sep rest with
        | [] => [[c]]
        | g :: gs => (c :: g) :: gs := rfl

lemma splitOnChar_nosep (sep : Char) (g : List Char) (hg : ∀ c ∈ g, ¬c = sep) :
    splitOnChar sep g = [g] := by
  induction g with
  | nil => rfl
  | cons c g' ih =>
    rw [splitOnChar_cons, if_neg (hg c (List.mem_cons_self c g')),
      ih (fun d hd => hg d (List.mem_cons_of_mem c hd))]

lemma splitOnChar_append_last (sep : Char) (l g : List Char) (hg : ∀ c ∈ g, ¬c = sep) :
    ∃ g0 gs, splitOnChar sep (l ++ sep :: g) = g0 :: (gs ++ [g]) := by
  induction l with
  | nil =>
    refine ⟨[], [], ?_⟩
    rw [List.nil_append, splitOnChar_cons, if_pos rfl, splitOnChar_nosep sep g hg]
    rfl
  | cons c l' ih =>
    obtain ⟨g0, gs, hrec⟩ := ih
    by_cases hc : c = sep
    · refine ⟨[], g0 :: gs, ?_⟩
      rw [List.cons_append, splitOnChar_cons, if_pos hc, hrec]
      simp
    · refine ⟨c :: g0, gs, ?_⟩
      rw [List.cons_append, splitOnChar_cons, if_neg hc, hrec]

lemma normSegsRev_concat (segs : List (List Char)) (g : List Char) (allow : Bool)
    (h1 : ¬g = []) (h2 : ¬g = ['.']) (h3 : ¬g = ['.', '.']) :
    normSegsRev (segs ++ [g]) allow = g :: normSegsRev segs allow := by
  unfold normSegsRev
  rw [List.foldl_append]
  simp [h1, h2, h3]

lemma joinSegsChar_concat (xs : List (List Char)) (g : List Char) :
    joinSegsChar (xs ++ [g]) = if xs.isEmpty then g else joinSegsChar xs ++ '/' :: g := by
  induction xs with
  | nil => rfl
  | cons x xs ih =>
    cases xs with
    | nil => rfl
    | cons y ys =>
      show joinSegsChar (x :: ((y :: ys) ++ [g])) = _
      rw [show joinSegsChar (x :: ((y :: ys) ++ [g]))
          = x ++ '/' :: joinSegsChar ((y :: ys) ++ [g]) from rfl, ih]
      simp [joinSegsChar, List.append_assoc]

lemma getLast?_of_suffix (l₁ l₂ : List Char) (h : l₂ <:+ l₁) (hne : l₂ ≠ []) :
    l₁.getLast? = l₂.getLast? := by
  obtain ⟨pre, rfl⟩ := h
  exact List.getLast?_append_of_ne_nil pre hne

lemma posixBasename_no_slash (p : String) : ∀ c ∈ (posixBasename p).data, ¬c = '/' := by
  intro c hc
  have hc' : c ∈ ((p.data.reverse.dropWhile (fun c => c = '/')).takeWhile (fun c => !(c = '/'))) :=
    List.mem_reverse.mp hc
  have := List.mem_takeWhile_imp hc'
  simpa using this

lemma tempName_no_slash (p : String) :
    ∀ c ∈ ("." ++ posixBasename p ++ TEMP_FILE_EXTENSION).data, ¬c = '/' := by
  intro c hc
  rw [String.data_append, String.data_append] at hc
  rcases List.mem_append.mp hc with h | h
  · rcases List.mem_append.mp h with h | h
    · have : c = '.' := by simpa using h
      subst this
      decide
    · exact posixBasename_no_slash p c h
  · have hall : ∀ d ∈ TEMP_FILE_EXTENSION.data, ¬d = '/' := by decide
    exact hall c h

lemma tempName_len (p : String) :
    12 ≤ ("." ++ posixBasename p ++ TEMP_FILE_EXTENSION).data.length := by
  rw [String.data_append, String.data_append, List.length_append, List.length_append]
  have h1 : (("." : String)).data.length = 1 := by decide
  have h2 : TEMP_FILE_EXTENSION.data.length = 11 := by decide
  omega

lemma tempName_suffix (p : String) :
    TEMP_FILE_EXTENSION.data <:+ ("." ++ posixBasename p ++ TEMP_FILE_EXTENSION).data := by
  rw [String.data_append]
  exact List.suffix_append _ _

lemma posixNormalize_keeps_last (l g : List Char) (gs : List (List Char))
    (hsplit : splitOnChar '/' l = gs ++ [g])
    (hne : ¬g = []) (hd : ¬g = ['.']) (hdd : ¬g = ['.', '.'])
    (hsuf : g <:+ l) (hlastp : g.getLast? = some 'p') :
    g <:+ (posixNormalize (String.mk l)).data := by
  have hlne : ¬(String.mk l).data = [] := by
    intro h
    have : l = [] := h
    subst this
    exact hne (List.suffix_nil.mp hsuf)
  have hlast_l : l.getLast? = some 'p' := by
    rw [getLast?_of_suffix l g hsuf hne]
    exact hlastp
  have htrail : strEndsWith (String.mk l) "/" = false := by
    rcases hb : strEndsWith (String.mk l) "/" with _ | _
    · rfl
    · exfalso
      have hsl : ("/" : String).data <:+ l := List.isSuffixOf_iff_suffix.mp hb
      have : l.getLast? = some '/' := by
        rw [getLast?_of_suffix l _ hsl (by decide)]
        rfl
      rw [hlast_l] at this
      exact absurd (Option.some.inj this) (by decide)
  have hnorm : ∀ allow, normSegsRev (splitOnChar '/' l) allow = g :: normSegsRev gs allow := by
    intro allow
    rw [hsplit]
    exact normSegsRev_concat gs g allow hne hd hdd
  simp only [posixNormalize]
  rw [if_neg hlne]
  have hcore : g <:+ joinSegsChar
      ((normSegsRev (splitOnChar '/' (String.mk l).data) (!pathIsAbsolute (String.mk l))).reverse) := by
    rw [show (String.mk l).data = l from rfl, hnorm, List.reverse_cons, joinSegsChar_concat]
    split
    · exact List.suffix_refl g
    · rw [show ('/' :: g) = ['/'] ++ g from rfl, ← List.append_assoc]
      exact List.suffix_append _ _
  have hcore_ne : ¬joinSegsChar
      ((normSegsRev (splitOnChar '/' (String.mk l).data) (!pathIsAbsolute (String.mk l))).reverse) = [] := by
    intro h
    rw [h] at hcore
    exact hne (List.suffix_nil.mp hcore)
  rw [if_neg hcore_ne, htrail]
  simp only [Bool.false_eq_true, if_false, List.append_nil]
  split
  · exact hcore.trans (by
      rw [show ('/' :: joinSegsChar _) = ['/'] ++ joinSegsChar _ from rfl]
      exact List.suffix_append _ _)
  · exact hcore

lemma getTempFilePath_suffix (p : String) :
    TEMP_FILE_EXTENSION.data <:+ (getTempFilePath p).data := by
  unfold getTempFilePath
  simp only [posixJoin2]
  have h12 := tempName_len p
  have hnos := tempName_no_slash p
  have hsufext := tempName_suffix p
  have hne : ¬("." ++ posixBasename p ++ TEMP_FILE_EXTENSION).data = [] := by
    intro h
    rw [h] at h12
    simp at h12
  have hd' : ¬("." ++ posixBasename p ++ TEMP_FILE_EXTENSION).data = ['.'] := by
    intro h
    rw [h] at h12
    simp at h12
  have hdd' : ¬("." ++ posixBasename p ++ TEMP_FILE_EXTENSION).data = ['.', '.'] := by
    intro h
    rw [h] at h12
    simp at h12
  have hlastp : ("." ++ posixBasename p ++ TEMP_FILE_EXTENSION).data.getLast? = some 'p' := by
    rw [getLast?_of_suffix _ _ hsufext (by decide)]
    decide
  have htn_ne : ("." ++ posixBasename p ++ TEMP_FILE_EXTENSION == "") = false := by
    rw [beq_eq_false_iff_ne]
    intro h
    exact hne (by rw [h])
  rcases hd0 : posixDirname p == "" with _ | _
  · -- dirname nonempty: joined is dirname / tempName
    have hfilter : [posixDirname p, "." ++ posixBasename p ++ TEMP_FILE_EXTENSION].filter
        (fun s => !(s == "")) = [posixDirname p, "." ++ posixBasename p ++ TEMP_FILE_EXTENSION] := by
      simp [List.filter, hd0, htn_ne]
    rw [hfilter]
    rw [if_neg (by simp)]
    have hjoin : joinSegsChar ([posixDirname p, "." ++ posixBasename p ++ TEMP_FILE_EXTENSION].map
        String.data) = (posixDirname p).data ++ '/' ::
          ("." ++ posixBasename p ++ TEMP_FILE_EXTENSION).data := rfl
    rw [hjoin]
    obtain ⟨g0, gs, hsplit⟩ := splitOnChar_append_last '/' (posixDirname p).data
      ("." ++ posixBasename p ++ TEMP_FILE_EXTENSION).data hnos
    refine hsufext.trans (posixNormalize_keeps_last _ _ (g0 :: gs)
      (by rw [hsplit]; rfl) hne hd' hdd' ?_ hlastp)
    rw [show ('/' :: ("." ++ posixBasename p ++ TEMP_FILE_EXTENSION).data)
        = ['/'] ++ ("." ++ posixBasename p ++ TEMP_FILE_EXTENSION).data from rfl,
      ← List.append_assoc]
    exact List.suffix_append _ _
  · -- dirname is the empty string: joined is just tempName
    have hdeq : posixDirname p = "" := by simpa using hd0
    have hfilter : [posixDirname p, "." ++ posixBasename p ++ TEMP_FILE_EXTENSION].filter
        (fun s => !(s == "")) = ["." ++ posixBasename p ++ TEMP_FILE_EXTENSION] := by
      simp [List.filter, hd0, htn_ne]
    rw [hfilter]
    rw [if_neg (by simp)]
    have hjoin : joinSegsChar (["." ++ posixBasename p ++ TEMP_FILE_EXTENSION].map String.data)
        = ("." ++ posixBasename p ++ TEMP_FILE_EXTENSION).data := rfl
    rw [hjoin]
    refine hsufext.trans (posixNormalize_keeps_last _ _ []
      (by rw [splitOnChar_nosep '/' _ hnos]; rfl) hne hd' hdd' (List.suffix_refl _) hlastp)

lemma getTempFilePath_endsWith (p : String) :
    strEndsWith (getTempFilePath p) TEMP_FILE_EXTENSION = true :=
  List.isSuffixOf_iff_suffix.mpr (getTempFilePath_suffix p)

lemma getTempFilePath_ne (p : String) (h : isJsFilePath p = true) :
    ¬getTempFilePath p = p := by
  intro heq
  have h1 : (getTempFilePath p).data.getLast? = some 'p' := by
    rw [getLast?_of_suffix _ _ (getTempFilePath_suffix p) (by decide)]
    decide
  have h2 : p.data.getLast? = some 's' := by
    have h3 : (strEndsWith p ".js" = true ∨ strEndsWith p ".cjs" = true) ∨
        strEndsWith p ".mjs" = true := by
      simpa [isJsFilePath] using h
    rcases h3 with (h' | h') | h'
    · rw [getLast?_of_suffix _ _ (List.isSuffixOf_iff_suffix.mp h') (by decide)]; decide
    · rw [getLast?_of_suffix _ _ (List.isSuffixOf_iff_suffix.mp h') (by decide)]; decide
    · rw [getLast?_of_suffix _ _ (List.isSuffixOf_iff_suffix.mp h') (by decide)]; decide
  rw [heq, h2] at h1
  exact absurd (Option.some.inj h1) (by decide)

/-- C1: the rewrite of a JavaScript file by `injectFile` writes the new line
sequence to a temporary file in the target's directory and then renames it
over the target: executing any strict prefix of the operation list (an
interruption before the final rename) leaves the target's bytes unchanged;
every partial state differs from the initial one at most at the single
temporary path; the completed run leaves exactly the rewritten content at the
target and no temp file; and the temp path (which never equals the JS path)
carries the `.splunk.tmp` suffix the cleanup pass removes. -/
theorem overwriteFileContents_crash_safe (eol : String) (fs : Fs) (filePath : String)
    (lines : List String) (hjs : isJsFilePath filePath = true) :
    (∀ k, k < (overwriteFileContentsOps eol filePath lines).length →
      applyOps fs ((overwriteFileContentsOps eol filePath lines).take k) filePath = fs filePath) ∧
    (∀ (k : Nat) (q : String), ¬q = filePath → ¬q = getTempFilePath filePath →
      applyOps fs ((overwriteFileContentsOps eol filePath lines).take k) q = fs q) ∧
    applyOps fs (overwriteFileContentsOps eol filePath lines) filePath
      = some (writeLinesToFileContent eol lines) ∧
    applyOps fs (overwriteFileContentsOps eol filePath lines) (getTempFilePath filePath) = none ∧
    ¬getTempFilePath filePath = filePath ∧
    strEndsWith (getTempFilePath filePath) TEMP_FILE_EXTENSION = true := by
  have htemp := getTempFilePath_ne filePath hjs
  have hwlen : (overwriteFileContentsOps eol filePath lines).length
      = (writeLinesToFileOps eol (getTempFilePath filePath) lines).length + 1 := by
    unfold overwriteFileContentsOps
    rw [List.length_append]
    rfl
  refine ⟨?_, ?_, ?_, ?_, htemp, getTempFilePath_endsWith filePath⟩
  · intro k hk
    have hk' : k ≤ (writeLinesToFileOps eol (getTempFilePath filePath) lines).length := by
      rw [hwlen] at hk
      omega
    rw [show (overwriteFileContentsOps eol filePath lines).take k
        = (writeLinesToFileOps eol (getTempFilePath filePath) lines).take k from
      List.take_append_of_le_length hk']
    apply applyOps_untouched
    intro op hop
    have := writeLinesToFileOps_touches eol (getTempFilePath filePath) lines op
      (List.take_subset k _ hop)
    rw [this]
    simp
    intro hcontra
    exact htemp hcontra.symm
  · intro k q hq1 hq2
    apply applyOps_untouched
    intro op hop
    have hop' : op ∈ overwriteFileContentsOps eol filePath lines := List.take_subset k _ hop
    rcases List.mem_append.mp hop' with h | h
    · rw [writeLinesToFileOps_touches eol _ lines op h]
      simp
      intro hcontra
      exact hq2 hcontra
    · have : op = FsOp.rename (getTempFilePath filePath) filePath := by simpa using h
      subst this
      simp [opTouches]
      exact ⟨fun hc => hq2 hc, fun hc => hq1 hc⟩
  · unfold overwriteFileContentsOps
    rw [applyOps_append_ops]
    show applyOp (applyOps fs (writeLinesToFileOps eol (getTempFilePath filePath) lines))
      (FsOp.rename (getTempFilePath filePath) filePath) filePath = _
    rw [show applyOp (applyOps fs (writeLinesToFileOps eol (getTempFilePath filePath) lines))
        (FsOp.rename (getTempFilePath filePath) filePath) filePath
        = applyOps fs (writeLinesToFileOps eol (getTempFilePath filePath) lines)
            (getTempFilePath filePath) from by simp [applyOp]]
    exact writeLinesToFileOps_content eol (getTempFilePath filePath) lines fs
  · unfold overwriteFileContentsOps
    rw [applyOps_append_ops]
    show applyOp (applyOps fs (writeLinesToFileOps eol (getTempFilePath filePath) lines))
      (FsOp.rename (getTempFilePath filePath) filePath) (getTempFilePath filePath) = _
    simp [applyOp, htemp]

theorem overwriteFileContents_crash_safe_witness :
    isJsFilePath "dist/main.js" = true ∧
    getTempFilePath "dist/main.js" = "dist/.main.js.splunk.tmp" ∧
    applyOps (fun p => if p = "dist/main.js" then some "old" else none)
        ((overwriteFileContentsOps "\n" "dist/main.js" ["a", "b"]).take 3) "dist/main.js"
      = some "old" ∧
    applyOps (fun p => if p = "dist/main.js" then some "old" else none)
        (overwriteFileContentsOps "\n" "dist/main.js" ["a", "b"]) "dist/main.js"
      = some "a\nb\n" ∧
    applyOps (fun p => if p = "dist/main.js" then some "old" else none)
        (overwriteFileContentsOps "\n" "dist/main.js" ["a", "b"]) "dist/.main.js.splunk.tmp"
      = none := by
  have h := overwriteFileContents_crash_safe "\n"
    (fun p => if p = "dist/main.js" then some "old" else none) "dist/main.js" ["a", "b"]
    (by decide)
  have htp : getTempFilePath "dist/main.js" = "dist/.main.js.splunk.tmp" := by decide
  refine ⟨by decide, htp, ?_, ?_, ?_⟩
  · have h3 := h.1 3 (by decide)
    rw [h3]
    rfl
  · have h3 := h.2.2.1
    rw [h3]
    rfl
  · have h4 := h.2.2.2.1
    rw [htp] at h4
    exact h4

/-! ## `injectFile` and `runSourcemapInject` as operation-producing functions
(`src/sourcemaps/injectFile.ts`, `src/sourcemaps/index.ts`). -/

/-- Embeds the effectful shell of `injectFile`: under dry-run it returns
before touching the file system; otherwise it reads the file (a failing read
throws), applies the pure write-phase decision, and either performs no write
or the safe-overwrite operation sequence. -/
def injectFileOps (eol : String) (fs : Fs) (jsFilePath sourceMapId : String) (dryRun : Bool) :
    Except Unit (List FsOp) :=
  if dryRun then .ok []
  else
    match fs jsFilePath with
    | none => .error ()
    | some content =>
      match injectLines (splitLines content) sourceMapId with
      | none => .ok []
      | some ls2 => .ok (overwriteFileContentsOps eol jsFilePath ls2)

/-- Embeds `cleanupTemporaryFiles`: remove every enumerated path ending in
`.splunk.tmp`. -/
def cleanupTemporaryFilesOps (allPaths : List String) : List FsOp :=
  (allPaths.filter (fun p => strEndsWith p TEMP_FILE_EXTENSION)).map FsOp.remove

/-- the per-file loop of `runSourcemapInject`: discover the pair (skip on no
match), hash the map file, inject; any error aborts the whole run -/
def injectLoop (eol : String) (jsMapFilePaths : List String) (dryRun : Bool) :
    Fs → List String → Except Unit (Fs × List FsOp)
  | fs, [] => .ok (fs, [])
  | fs, jsFilePath :: rest =>
    match (discoverJsMapFilePath fs jsFilePath jsMapFilePaths).result with
    | .error _ => .error ()
    | .ok none => injectLoop eol jsMapFilePaths dryRun fs rest
    | .ok (some mapPath) =>
      match fs mapPath with
      | none => .error ()
      | some mapContent =>
        match injectFileOps eol fs jsFilePath (computeSourceMapId [mapContent.data.map Char.toNat]) dryRun with
        | .error _ => .error ()
        | .ok ops =>
          match injectLoop eol jsMapFilePaths dryRun (applyOps fs ops) rest with
          | .error _ => .error ()
          | .ok (fs2, ops2) => .ok (fs2, ops ++ ops2)

/-- Embeds `runSourcemapInject`: filter the enumerated paths by suffix, run
the per-file loop, then the unconditional temp-file cleanup pass.  The
enumeration collaborator's outputs (`readdirRecursive` under the include and
map-glob patterns, and again for the cleanup pass) are parameters. -/
def runSourcemapInjectOps (eol : String) (fs : Fs)
    (includedPaths mapGlobPaths allPaths : List String) (dryRun : Bool) :
    Except Unit (Fs × List FsOp) :=
  match injectLoop eol (mapGlobPaths.filter isJsMapFilePath) dryRun fs
      (includedPaths.filter isJsFilePath) with
  | .error _ => .error ()
  | .ok (fs1, ops) =>
    .ok (applyOps fs1 (cleanupTemporaryFilesOps allPaths),
      ops ++ cleanupTemporaryFilesOps allPaths)

lemma injectLoop_dryRun (eol : String) (maps : List String) :
    ∀ (jsList : List String) (fs : Fs),
      injectLoop eol maps true fs jsList = .error () ∨
      injectLoop eol maps true fs jsList = .ok (fs, []) := by
  intro jsList
  induction jsList with
  | nil => intro fs; right; rfl
  | cons js rest ih =>
    intro fs
    rcases hd : (discoverJsMapFilePath fs js maps).result with u | ojs
    · left; simp [injectLoop, hd]
    · rcases ojs with _ | mapPath
      · simpa [injectLoop, hd] using ih fs
      · rcases hm : fs mapPath with _ | mapContent
        · left; simp [injectLoop, hd, hm]
        · rcases ih fs with h | h
          · left
            simp [injectLoop, hd, hm, injectFileOps, applyOps, h]
          · right
            simp [injectLoop, hd, hm, injectFileOps, applyOps, h]

/-- C9 (amended): under dry-run the injector itself performs no filesystem
operation for any file, and an entire `runSourcemapInject` run mutates the
filesystem only through the unconditional cleanup pass, which removes exactly
the enumerated paths ending in `.splunk.tmp`; when no such leftover temp file
exists, a dry-run performs no mutation at all.  (The cleanup pass is NOT
skipped under dry-run, so the claim's ‹no file is removed anywhere under the
root› fails when a stale temp file from a crashed earlier run exists.) -/
theorem runSourcemapInject_dryRun (eol : String) (fs : Fs)
    (includedPaths mapGlobPaths allPaths : List String) :
    (∀ jsFilePath sourceMapId, injectFileOps eol fs jsFilePath sourceMapId true = .ok []) ∧
    (∀ fs1 ops,
      runSourcemapInjectOps eol fs includedPaths mapGlobPaths allPaths true = .ok (fs1, ops) →
      ops = cleanupTemporaryFilesOps allPaths ∧
      (∀ op ∈ ops, ∃ p, op = FsOp.remove p ∧ strEndsWith p TEMP_FILE_EXTENSION = true) ∧
      ((∀ p ∈ allPaths, strEndsWith p TEMP_FILE_EXTENSION = false) →
        ops = [] ∧ fs1 = fs)) := by
  constructor
  · intro jsFilePath sourceMapId
    rfl
  · intro fs1 ops hrun
    unfold runSourcemapInjectOps at hrun
    rcases injectLoop_dryRun eol (mapGlobPaths.filter isJsMapFilePath)
        (includedPaths.filter isJsFilePath) fs with h | h
    · rw [h] at hrun
      cases hrun
    · rw [h] at hrun
      simp only [List.nil_append] at hrun
      injection hrun with hrun
      have hops : ops = cleanupTemporaryFilesOps allPaths := (congrArg Prod.snd hrun).symm
      have hfs1 : fs1 = applyOps fs (cleanupTemporaryFilesOps allPaths) :=
        (congrArg Prod.fst hrun).symm
      refine ⟨hops, ?_, ?_⟩
      · intro op hop
        rw [hops] at hop
        obtain ⟨p, hp, hmap⟩ := List.mem_map.mp hop
        exact ⟨p, hmap.symm, (List.mem_filter.mp hp).2⟩
      · intro hclean
        have hnil : cleanupTemporaryFilesOps allPaths = [] := by
          unfold cleanupTemporaryFilesOps
          rw [List.filter_eq_nil_iff.mpr (fun p hp => by simp [hclean p hp])]
          rfl
        rw [hops, hnil, hfs1, hnil]
        exact ⟨rfl, rfl⟩

/-- projections used to state concrete facts about a run result -/
def runOpsOf (r : Except Unit (Fs × List FsOp)) : Option (List FsOp) :=
  match r with
  | .ok (_, ops) => some ops
  | .error _ => none

def runFsAt (r : Except Unit (Fs × List FsOp)) (p : String) : Option (Option String) :=
  match r with
  | .ok (fs1, _) => some (fs1 p)
  | .error _ => none

/-- C9 counterexample: a dry-run over a tree holding a leftover temp file from
a crashed earlier run REMOVES that file — the unconditional cleanup pass runs
even under dry-run, refuting ‹no file is written, renamed, or removed anywhere
under the root directory during the run›. -/
theorem runSourcemapInject_dryRun_counterexample :
    runOpsOf (runSourcemapInjectOps "\n"
        (fun p => if p = "a/.x.js.splunk.tmp" then some "" else none)
        [] [] ["a/.x.js.splunk.tmp"] true)
      = some [FsOp.remove "a/.x.js.splunk.tmp"] ∧
    runFsAt (runSourcemapInjectOps "\n"
        (fun p => if p = "a/.x.js.splunk.tmp" then some "" else none)
        [] [] ["a/.x.js.splunk.tmp"] true) "a/.x.js.splunk.tmp"
      = some none ∧
    (fun p => if p = "a/.x.js.splunk.tmp" then some "" else none : Fs) "a/.x.js.splunk.tmp"
      = some "" := by
  refine ⟨by decide, ?_, by decide⟩
  rfl
